import Mathlib

/-!
# Verification of the summa-tx/bitcoins-rs transaction core

A shallow embedding, in Lean 4, of the Bitcoin transaction (de)serialization,
sighash-preimage construction, script classification, BIP32 public-path
derivation, and PSBT schema composition of the `bitcoins-rs` repository.

Bytes are modelled as `Nat` (kept below 256 by construction or by explicit
hypothesis), byte strings as `List Nat`, fallible operations as `Option` /
`Except`, and Rust panics (out-of-bounds vector indexing) as `Option.none`.
Definitions are translated from the Rust sources; the handful of primitives
that live in the out-of-tree `riemann-core` / `coins-bip32` support crates
(the compact-size varint codec, the prefixed-vector wrapper, the TxIn wire
layout, SHA256, and `DerivationPath::last_hardened`) are modelled from the
specification and are marked as such in their doc comments.
-/

/-! ## Little-endian integer encodings (spec §4.2) -/

/-- Modelled from the spec: `riemann-core`'s `Ser::write_u32_le`
("all multi-byte integers in Bitcoin wire format are little-endian"). -/
def u32LE (n : Nat) : List Nat :=
  [n % 256, n / 256 % 256, n / 65536 % 256, n / 16777216 % 256]

/-- Modelled from the spec: `riemann-core`'s `Ser::write_u64_le`. -/
def u64LE (n : Nat) : List Nat :=
  [n % 256, n / 256 % 256, n / 65536 % 256, n / 16777216 % 256,
   n / 4294967296 % 256, n / 1099511627776 % 256,
   n / 281474976710656 % 256, n / 72057594037927936 % 256]

/-- Modelled from the spec: `riemann-core`'s `Ser::read_u32_le`, as a parser
on a byte list returning the value and the unconsumed tail. -/
def parseU32LE : List Nat → Option (Nat × List Nat)
  | b0 :: b1 :: b2 :: b3 :: rest =>
      some (b0 + 256 * b1 + 65536 * b2 + 16777216 * b3, rest)
  | _ => none

/-- Modelled from the spec: `riemann-core`'s `Ser::read_u64_le`. -/
def parseU64LE : List Nat → Option (Nat × List Nat)
  | b0 :: b1 :: b2 :: b3 :: b4 :: b5 :: b6 :: b7 :: rest =>
      some (b0 + 256 * b1 + 65536 * b2 + 16777216 * b3 + 4294967296 * b4
              + 1099511627776 * b5 + 281474976710656 * b6
              + 72057594037927936 * b7, rest)
  | _ => none

/-! ## Compact-size varints (spec §4.2)

Bitcoin's varint has four forms; `riemann-core`'s `ConcretePrefixVec` records
which form a parsed vector used (`len_prefix`) so that re-serialization is
byte-exact even for non-minimally encoded inputs (witnessed in-repo by the
old crate's `Script::new_non_minimal` round-trip test). -/

/-- The four compact-size forms: 1, 3, 5 or 9 encoded bytes. -/
inductive VarFmt
  | one
  | three
  | five
  | nine
deriving DecidableEq, Repr

/-- Modelled from the spec: compact-size encoding, parameterized by the
recorded form. `0–0xFC → 1 byte; 0xFD + u16 LE; 0xFE + u32 LE; 0xFF + u64 LE`. -/
def serVarint : VarFmt → Nat → List Nat
  | .one, n => [n]
  | .three, n => 0xFD :: [n % 256, n / 256 % 256]
  | .five, n => 0xFE :: u32LE n
  | .nine, n => 0xFF :: u64LE n

/-- Modelled from the spec: the minimal compact-size form for a value, used
by constructors (`Vin::new`, `ScriptSig::from`, ...). -/
def minimalFmt (n : Nat) : VarFmt :=
  if n ≤ 0xFC then .one
  else if n ≤ 0xFFFF then .three
  else if n ≤ 0xFFFFFFFF then .five
  else .nine

/-- Modelled from the spec: compact-size parsing, returning the value, the
form it was carried in, and the unconsumed tail. -/
def parseVarint : List Nat → Option (Nat × VarFmt × List Nat)
  | [] => none
  | x :: rest =>
      if x < 0xFD then some (x, .one, rest)
      else if x = 0xFD then
        match rest with
        | b0 :: b1 :: r => some (b0 + 256 * b1, .three, r)
        | _ => none
      else if x = 0xFE then
        match parseU32LE rest with
        | some (n, r) => some (n, .five, r)
        | none => none
      else
        match parseU64LE rest with
        | some (n, r) => some (n, .nine, r)
        | none => none

/-! ## Prefixed vectors -/

/-- Modelled from the spec: `riemann-core`'s `ConcretePrefixVec<T>`: a vector
serialized as `varint(len) ‖ items`, remembering the varint form its length
prefix used so that round-trips are byte-exact. -/
structure PVec (α : Type) where
  fmt : VarFmt
  items : List α
deriving DecidableEq, Repr

/-- Modelled from the spec: `ConcretePrefixVec::new` / `From<Vec<T>>`: wrap a
vector with a minimal length prefix. -/
def PVec.fromList {α : Type} (l : List α) : PVec α :=
  ⟨minimalFmt l.length, l⟩

/-- Modelled from the spec: `PrefixVec::null()`, the empty vector with a
one-byte (`0x00`) prefix. -/
def PVec.null {α : Type} : PVec α :=
  ⟨.one, []⟩

/-- Modelled from the spec: serialization of a prefixed vector:
`varint(len) ‖ serialized items`. -/
def PVec.ser {α : Type} (f : α → List Nat) (v : PVec α) : List Nat :=
  serVarint v.fmt v.items.length ++ (v.items.map f).flatten

/-- Parse a fixed count of consecutive items (used where `riemann-core`
deserializes with an explicit `limit`, e.g. the witness vector). -/
def parseCount {α : Type} (p : List Nat → Option (α × List Nat)) :
    Nat → List Nat → Option (List α × List Nat)
  | 0, b => some ([], b)
  | n + 1, b =>
      match p b with
      | none => none
      | some (a, r) =>
          match parseCount p n r with
          | none => none
          | some (l, r') => some (a :: l, r')

/-- Modelled from the spec: deserialization of a prefixed vector: read the
compact-size count, then that many items. -/
def PVec.parse {α : Type} (p : List Nat → Option (α × List Nat))
    (b : List Nat) : Option (PVec α × List Nat) :=
  match parseVarint b with
  | none => none
  | some (n, fmt, r) =>
      match parseCount p n r with
      | none => none
      | some (l, r') => some (⟨fmt, l⟩, r')

/-! ## Scripts (src/bitcoin/src/types/script.rs) -/

/-- `Script`: an opaque prefixed byte vector (`wrap_prefixed_byte_vector!`). -/
abbrev Script := PVec Nat

/-- `ScriptSig`: same representation, distinct role. -/
abbrev ScriptSig := PVec Nat

/-- `ScriptPubkey`: same representation, distinct role. -/
abbrev ScriptPubkey := PVec Nat

/-- `WitnessStackItem`: same representation, distinct role. -/
abbrev WitnessStackItem := PVec Nat

/-- A `Witness` is one input's stack: a prefixed vector of stack items. -/
abbrev Witness := PVec (PVec Nat)

/-- Serialization of one opaque prefixed byte vector. -/
def serBytesVec (s : PVec Nat) : List Nat :=
  serVarint s.fmt s.items.length ++ s.items

/-- Get exactly `k` raw bytes. -/
def readBytes (k : Nat) (b : List Nat) : Option (List Nat × List Nat) :=
  if k ≤ b.length then some (b.take k, b.drop k) else none

/-- Parse one opaque prefixed byte vector. -/
def parseBytesVec (b : List Nat) : Option (PVec Nat × List Nat) :=
  match parseVarint b with
  | none => none
  | some (n, fmt, r) =>
      match readBytes n r with
      | none => none
      | some (items, r') => some (⟨fmt, items⟩, r')

/-! ## Transaction inputs and outputs -/

/-- Modelled from the spec: `BitcoinOutpoint` (src/bitcoin/src/types/txin.rs
is not in the corpus; the wasm wrapper shows fields `txid` and `idx`):
a 32-byte LE txid plus a u32 output index. -/
structure BitcoinOutpoint where
  txid : List Nat
  idx : Nat
deriving DecidableEq, Repr

/-- Modelled from the spec: outpoint wire format, `txid (32B) ‖ idx (4B LE)`. -/
def BitcoinOutpoint.ser (o : BitcoinOutpoint) : List Nat :=
  o.txid ++ u32LE o.idx

/-- Modelled from the spec: outpoint parsing. -/
def BitcoinOutpoint.parse (b : List Nat) : Option (BitcoinOutpoint × List Nat) :=
  match readBytes 32 b with
  | none => none
  | some (txid, r) =>
      match parseU32LE r with
      | none => none
      | some (idx, r') => some (⟨txid, idx⟩, r')

/-- Modelled from the spec: `BitcoinTxIn` with fields `outpoint`,
`script_sig`, `sequence` (per the wasm wrapper and spec §3). -/
structure BitcoinTxIn where
  outpoint : BitcoinOutpoint
  script_sig : ScriptSig
  sequence : Nat
deriving DecidableEq, Repr

/-- Modelled from the spec: TxIn wire format,
`outpoint (36B) ‖ varint-prefixed script_sig ‖ sequence (4B LE)`. -/
def BitcoinTxIn.ser (i : BitcoinTxIn) : List Nat :=
  i.outpoint.ser ++ serBytesVec i.script_sig ++ u32LE i.sequence

/-- Modelled from the spec: TxIn parsing. -/
def BitcoinTxIn.parse (b : List Nat) : Option (BitcoinTxIn × List Nat) :=
  match BitcoinOutpoint.parse b with
  | none => none
  | some (o, r) =>
      match parseBytesVec r with
      | none => none
      | some (ss, r') =>
          match parseU32LE r' with
          | none => none
          | some (seq, r'') => some (⟨o, ss, seq⟩, r'')

/-- `TxOut` (src/bitcoin/src/types/txout.rs): a u64 satoshi value and a
locking `ScriptPubkey`. -/
structure TxOut where
  value : Nat
  script_pubkey : ScriptPubkey
deriving DecidableEq, Repr

/-- `TxOut::null()`: value `0xffff_ffff_ffff_ffff` and an empty
`script_pubkey`; used inside legacy SIGHASH_SINGLE (src txout.rs). -/
def TxOut.null : TxOut :=
  ⟨0xffffffffffffffff, PVec.null⟩

/-- `TxOut::serialize`: `value (8B LE) ‖ varint-prefixed script_pubkey`
(src txout.rs). -/
def TxOut.ser (o : TxOut) : List Nat :=
  u64LE o.value ++ serBytesVec o.script_pubkey

/-- `TxOut::deserialize` (src txout.rs). -/
def TxOut.parse (b : List Nat) : Option (TxOut × List Nat) :=
  match parseU64LE b with
  | none => none
  | some (v, r) =>
      match parseBytesVec r with
      | none => none
      | some (spk, r') => some (⟨v, spk⟩, r')

/-- `Vin`: prefixed vector of inputs. -/
abbrev Vin := PVec BitcoinTxIn

/-- `Vout`: prefixed vector of outputs. -/
abbrev Vout := PVec TxOut

/-- Vin wire format. -/
def Vin.ser (v : Vin) : List Nat := PVec.ser BitcoinTxIn.ser v

/-- Vout wire format. -/
def Vout.ser (v : Vout) : List Nat := PVec.ser TxOut.ser v

/-! ## SHA256 and SHA256d

Modelled from the spec (glossary: `SHA256d = SHA256(SHA256(x))`); the hash
writer lives in `riemann-core`. Words are `Nat` reduced mod `2^32`. -/

/-- 32-bit right-rotate on a word below `2^32`. -/
def rotr32 (k x : Nat) : Nat :=
  ((x >>> k) ||| (x <<< (32 - k))) % 4294967296

/-- SHA256 small sigma 0. -/
def sigSmall0 (x : Nat) : Nat := (rotr32 7 x) ^^^ (rotr32 18 x) ^^^ (x >>> 3)

/-- SHA256 small sigma 1. -/
def sigSmall1 (x : Nat) : Nat := (rotr32 17 x) ^^^ (rotr32 19 x) ^^^ (x >>> 10)

/-- SHA256 big sigma 0. -/
def sigBig0 (x : Nat) : Nat := (rotr32 2 x) ^^^ (rotr32 13 x) ^^^ (rotr32 22 x)

/-- SHA256 big sigma 1. -/
def sigBig1 (x : Nat) : Nat := (rotr32 6 x) ^^^ (rotr32 11 x) ^^^ (rotr32 25 x)

/-- The 64 SHA256 round constants. -/
def sha256K : List Nat :=
  [1116352408, 1899447441, 3049323471, 3921009573, 961987163,
   1508970993, 2453635748, 2870763221, 3624381080, 310598401,
   607225278, 1426881987, 1925078388, 2162078206, 2614888103,
   3248222580, 3835390401, 4022224774, 264347078, 604807628,
   770255983, 1249150122, 1555081692, 1996064986, 2554220882,
   2821834349, 2952996808, 3210313671, 3336571891, 3584528711,
   113926993, 338241895, 666307205, 773529912, 1294757372,
   1396182291, 1695183700, 1986661051, 2177026350, 2456956037,
   2730485921, 2820302411, 3259730800, 3345764771, 3516065817,
   3600352804, 4094571909, 275423344, 430227734, 506948616,
   659060556, 883997877, 958139571, 1322822218, 1537002063,
   1747873779, 1955562222, 2024104815, 2227730452, 2361852424,
   2428436474, 2756734187, 3204031479, 3329325298]

/-- The SHA256 initial hash state. -/
def sha256H0 : List Nat :=
  [1779033703, 3144134277, 1013904242,
   2773480762, 1359893119, 2600822924,
   528734635, 1541459225]

/-- Big-endian 32-bit words from bytes (4 bytes per word). -/
def bytesToWords : List Nat → List Nat
  | b0 :: b1 :: b2 :: b3 :: rest =>
      (((b0 * 256 + b1) * 256 + b2) * 256 + b3) :: bytesToWords rest
  | _ => []

/-- Big-endian bytes of one 32-bit word. -/
def wordToBytes (w : Nat) : List Nat :=
  [w / 16777216 % 256, w / 65536 % 256, w / 256 % 256, w % 256]

/-- Big-endian 8-byte encoding (the SHA256 length field). -/
def u64BE (n : Nat) : List Nat :=
  [n / 72057594037927936 % 256, n / 281474976710656 % 256,
   n / 1099511627776 % 256, n / 4294967296 % 256,
   n / 16777216 % 256, n / 65536 % 256, n / 256 % 256, n % 256]

/-- SHA256 padding: `0x80`, zeros to 56 mod 64, then the bit length. -/
def sha256pad (msg : List Nat) : List Nat :=
  let r := (msg.length + 1) % 64
  let zeros := if r ≤ 56 then 56 - r else 120 - r
  msg ++ 0x80 :: List.replicate zeros 0 ++ u64BE (8 * msg.length)

/-- Split a byte list into 64-byte blocks (structural recursion on a fuel
bound so the definition reduces; the fuel never runs out, since every step
drops at least one byte of a nonempty list). -/
def chunk64Aux : Nat → List Nat → List (List Nat)
  | 0, _ => []
  | fuel + 1, l => if l = [] then [] else l.take 64 :: chunk64Aux fuel (l.drop 64)

/-- Split a byte list into 64-byte blocks. -/
def chunk64 (l : List Nat) : List (List Nat) :=
  chunk64Aux l.length l

/-- Extend the (reversed, newest-first) message schedule by `k` words. -/
def extendSched : Nat → List Nat → List Nat
  | 0, r => r
  | k + 1, r =>
      extendSched k
        (((sigSmall1 (r.getD 1 0) + r.getD 6 0 + sigSmall0 (r.getD 14 0) + r.getD 15 0)
            % 4294967296) :: r)

/-- The running SHA256 compression state. -/
structure SHAState where
  a : Nat
  b : Nat
  c : Nat
  d : Nat
  e : Nat
  f : Nat
  g : Nat
  h : Nat
deriving Repr

/-- One SHA256 round. -/
def sha256round (st : SHAState) (kw : Nat × Nat) : SHAState :=
  let t1 := (st.h + sigBig1 st.e + ((st.e &&& st.f) ^^^ ((4294967295 - st.e) &&& st.g))
              + kw.1 + kw.2) % 4294967296
  let t2 := (sigBig0 st.a + ((st.a &&& st.b) ^^^ (st.a &&& st.c) ^^^ (st.b &&& st.c)))
              % 4294967296
  ⟨(t1 + t2) % 4294967296, st.a, st.b, st.c, (st.d + t1) % 4294967296,
   st.e, st.f, st.g⟩

/-- SHA256 compression of one 64-byte block into the chaining state. -/
def sha256compress (h : List Nat) (block : List Nat) : List Nat :=
  let w := (extendSched 48 (bytesToWords block).reverse).reverse
  let st0 : SHAState :=
    ⟨h.getD 0 0, h.getD 1 0, h.getD 2 0, h.getD 3 0,
     h.getD 4 0, h.getD 5 0, h.getD 6 0, h.getD 7 0⟩
  let st := (sha256K.zip w).foldl (fun s kw => sha256round s (kw.1, kw.2)) st0
  [(h.getD 0 0 + st.a) % 4294967296, (h.getD 1 0 + st.b) % 4294967296,
   (h.getD 2 0 + st.c) % 4294967296, (h.getD 3 0 + st.d) % 4294967296,
   (h.getD 4 0 + st.e) % 4294967296, (h.getD 5 0 + st.f) % 4294967296,
   (h.getD 6 0 + st.g) % 4294967296, (h.getD 7 0 + st.h) % 4294967296]

/-- SHA256 of a byte string, as 32 bytes. -/
def sha256 (msg : List Nat) : List Nat :=
  ((chunk64 (sha256pad msg)).foldl sha256compress sha256H0).map wordToBytes
    |>.flatten

/-- `SHA256d(x) = SHA256(SHA256(x))` (spec glossary). -/
def sha256d (msg : List Nat) : List Nat := sha256 (sha256 msg)

/-- `Hash256Digest::default()`: 32 zero bytes. -/
def zeroDigest : List Nat := List.replicate 32 0

/-! ## Transactions (src/bitcoin/src/types/transactions.rs) -/

/-- `Sighash`: all sighash modes (`transactions.rs`). -/
inductive Sighash
  | All
  | None
  | Single
  | AllACP
  | NoneACP
  | SingleACP
deriving DecidableEq, Repr

/-- The `u8` discriminant of each `Sighash` mode (`#[repr(u8)]`). -/
def Sighash.toByte : Sighash → Nat
  | .All => 0x01
  | .None => 0x02
  | .Single => 0x03
  | .AllACP => 0x81
  | .NoneACP => 0x82
  | .SingleACP => 0x83

/-- `TxError` (`transactions.rs`), restricted to the non-IO variants the
embedding can produce. -/
inductive TxError
  | NoneUnsupported
  | SighashSingleBug
  | UnknownSighash (flag : Nat)
  | BadWitnessFlag (b0 b1 : Nat)
deriving DecidableEq, Repr

/-- `Sighash::from_u8` (`transactions.rs`). -/
def Sighash.from_u8 (flag : Nat) : Except TxError Sighash :=
  if flag = 0x01 then .ok .All
  else if flag = 0x02 then .ok .None
  else if flag = 0x03 then .ok .Single
  else if flag = 0x81 then .ok .AllACP
  else if flag = 0x82 then .ok .NoneACP
  else if flag = 0x83 then .ok .SingleACP
  else .error (.UnknownSighash flag)

/-- `LegacyTx` (`transactions.rs`): version, inputs, outputs, locktime. -/
structure LegacyTx where
  version : Nat
  vin : Vin
  vout : Vout
  locktime : Nat
deriving DecidableEq, Repr

/-- `LegacyTx::serialize`:
`version (4B LE) ‖ vin ‖ vout ‖ locktime (4B LE)` (`transactions.rs`). -/
def LegacyTx.ser (tx : LegacyTx) : List Nat :=
  u32LE tx.version ++ Vin.ser tx.vin ++ Vout.ser tx.vout ++ u32LE tx.locktime

/-- `LegacyTx::deserialize` (`transactions.rs`). -/
def LegacyTx.parse (b : List Nat) : Option (LegacyTx × List Nat) :=
  match parseU32LE b with
  | none => none
  | some (version, r) =>
      match PVec.parse BitcoinTxIn.parse r with
      | none => none
      | some (vin, r') =>
          match PVec.parse TxOut.parse r' with
          | none => none
          | some (vout, r'') =>
              match parseU32LE r'' with
              | none => none
              | some (locktime, r''') =>
                  some (⟨version, vin, vout, locktime⟩, r''')

/-- `<LegacyTx as Transaction>::new` (`transactions.rs`): wrap the given
inputs and outputs with minimal prefixes. -/
def LegacyTx.new (version : Nat) (vin : List BitcoinTxIn) (vout : List TxOut)
    (locktime : Nat) : LegacyTx :=
  ⟨version, PVec.fromList vin, PVec.fromList vout, locktime⟩

/-- Modelled from the spec: the `Transaction::txid` default of
`riemann-core` — "TXID = SHA256d over the legacy serialization". -/
def LegacyTx.txid (tx : LegacyTx) : List Nat :=
  sha256d tx.ser

/-- `LegacySighashArgs` (`transactions.rs`). -/
structure LegacySighashArgs where
  index : Nat
  sighash_flag : Sighash
  prevout_script : Script
deriving DecidableEq, Repr

/-- `LegacyTx::legacy_sighash_prep` (`transactions.rs`): clone the tx and
replace every input's `script_sig` by the empty script, except the input at
`index`, which receives the prevout script's raw items (re-wrapped with a
minimal prefix by `ScriptSig::from`). -/
def LegacyTx.legacy_sighash_prep (tx : LegacyTx) (index : Nat)
    (prevout_script : Script) : LegacyTx :=
  { tx with
    vin := ⟨tx.vin.fmt,
      tx.vin.items.mapIdx fun i txin =>
        { txin with
          script_sig :=
            if i = index then PVec.fromList prevout_script.items
            else PVec.null }⟩ }

/-- `LegacyTx::legacy_sighash_single` (`transactions.rs`): replace the
outputs by `index` null TxOuts followed by output `index` (panics — `none` —
if `index` is out of range of the outputs), and rebuild the inputs zeroing
the sequence of every input other than `index`. The rebuilt vectors carry
minimal prefixes (`Vout::new`, `Vin::from`). -/
def LegacyTx.legacy_sighash_single (copy_tx : LegacyTx) (index : Nat) :
    Option LegacyTx :=
  match copy_tx.vout.items.get? index with
  | Option.none => none
  | some out =>
      let tx_outs := List.replicate index TxOut.null ++ [out]
      let vin := copy_tx.vin.items.mapIdx fun i txin =>
        if i ≠ index then { txin with sequence := 0 } else txin
      some { copy_tx with vout := PVec.fromList tx_outs, vin := PVec.fromList vin }

/-- `LegacyTx::legacy_sighash_anyone_can_pay` (`transactions.rs`): replace
the inputs by the single input at `index` (panics — `none` — if out of
range). -/
def LegacyTx.legacy_sighash_anyone_can_pay (copy_tx : LegacyTx) (index : Nat) :
    Option LegacyTx :=
  match copy_tx.vin.items.get? index with
  | Option.none => none
  | some txin => some { copy_tx with vin := PVec.fromList [txin] }

/-- `<LegacyTx as Transaction>::write_sighash_preimage` (`transactions.rs`),
producing the preimage bytes. `Option.none` models a Rust panic,
`Except.error` an early return. -/
def LegacyTx.write_sighash_preimage (tx : LegacyTx) (args : LegacySighashArgs) :
    Option (Except TxError (List Nat)) :=
  if args.sighash_flag = Sighash.None ∨ args.sighash_flag = Sighash.NoneACP then
    some (.error .NoneUnsupported)
  else
    let copy₀ := tx.legacy_sighash_prep args.index args.prevout_script
    let afterSingle : Option (Except TxError LegacyTx) :=
      if args.sighash_flag = Sighash.Single ∨ args.sighash_flag = Sighash.SingleACP then
        if args.index ≥ tx.vout.items.length then some (.error .SighashSingleBug)
        else
          match copy₀.legacy_sighash_single args.index with
          | Option.none => none
          | some t => some (.ok t)
      else some (.ok copy₀)
    match afterSingle with
    | Option.none => none
    | some (.error e) => some (.error e)
    | some (.ok copy₁) =>
        let afterACP : Option LegacyTx :=
          if args.sighash_flag.toByte &&& 0x80 = 0x80 then
            copy₁.legacy_sighash_anyone_can_pay args.index
          else some copy₁
        match afterACP with
        | Option.none => none
        | some copy₂ =>
            some (.ok (copy₂.ser ++ u32LE args.sighash_flag.toByte))

/-- `Transaction::sighash` for `LegacyTx`: SHA256d of the preimage. -/
def LegacyTx.legacy_sighash (tx : LegacyTx) (args : LegacySighashArgs) :
    Option (Except TxError (List Nat)) :=
  (tx.write_sighash_preimage args).map (Except.map sha256d)

/-- `WitnessSighashArgs` (`transactions.rs`). -/
structure WitnessSighashArgs where
  index : Nat
  sighash_flag : Sighash
  prevout_script : Script
  prevout_value : Nat
deriving DecidableEq, Repr

/-- `WitnessTx` (`transactions.rs`): a `LegacyTx` plus per-input witnesses
(an unprefixed vector of witnesses). -/
structure WitnessTx where
  legacy_tx : LegacyTx
  witnesses : List Witness
deriving DecidableEq, Repr

/-- `WitnessTx::without_witness` (`transactions.rs`): the inner legacy tx. -/
def WitnessTx.without_witness (tx : WitnessTx) : LegacyTx :=
  tx.legacy_tx

/-- Serialization of one input's witness:
`varint(stack_depth) ‖ (varint-prefixed stack item)*` (spec §4.5). -/
def Witness.ser (w : Witness) : List Nat :=
  PVec.ser serBytesVec w

/-- Parsing of one input's witness. -/
def Witness.parse (b : List Nat) : Option (Witness × List Nat) :=
  PVec.parse parseBytesVec b

/-- `Witness::null()`: an empty stack. -/
def Witness.null : Witness := PVec.null

/-- `WitnessTx::serialize`:
`version ‖ 0x00 0x01 ‖ vin ‖ vout ‖ witnesses ‖ locktime`
(`transactions.rs`); the witness vector itself is unprefixed. -/
def WitnessTx.ser (tx : WitnessTx) : List Nat :=
  u32LE tx.legacy_tx.version ++ [0, 1] ++ Vin.ser tx.legacy_tx.vin
    ++ Vout.ser tx.legacy_tx.vout ++ (tx.witnesses.map Witness.ser).flatten
    ++ u32LE tx.legacy_tx.locktime

/-- `WitnessTx::deserialize` (`transactions.rs`): version, the `00 01`
marker/flag (anything else is `BadWitnessFlag`, here `none`), vin, vout,
exactly `vin.len()` witnesses, locktime. -/
def WitnessTx.parse (b : List Nat) : Option (WitnessTx × List Nat) :=
  match parseU32LE b with
  | none => none
  | some (version, r) =>
      match r with
      | 0 :: 1 :: r' =>
          (match PVec.parse BitcoinTxIn.parse r' with
           | none => none
           | some (vin, r'') =>
               match PVec.parse TxOut.parse r'' with
               | none => none
               | some (vout, r₃) =>
                   match parseCount Witness.parse vin.items.length r₃ with
                   | none => none
                   | some (witnesses, r₄) =>
                       match parseU32LE r₄ with
                       | none => none
                       | some (locktime, r₅) =>
                           some (⟨⟨version, vin, vout, locktime⟩, witnesses⟩, r₅))
      | _ => none

/-- `<WitnessTx as Transaction>::new` (`transactions.rs`): builds a null
witness per input. -/
def WitnessTx.tx_new (version : Nat) (vin : List BitcoinTxIn)
    (vout : List TxOut) (locktime : Nat) : WitnessTx :=
  ⟨LegacyTx.new version vin vout locktime, vin.map fun _ => Witness.null⟩

/-- `<WitnessTx as WitnessTransaction>::new` (`transactions.rs`): stores the
caller's witness vector unchanged. -/
def WitnessTx.wtx_new (version : Nat) (vin : List BitcoinTxIn)
    (vout : List TxOut) (witnesses : List Witness) (locktime : Nat) : WitnessTx :=
  ⟨LegacyTx.new version vin vout locktime, witnesses⟩

/-- `<WitnessTx as Transaction>::txid` (`transactions.rs`): SHA256d over
`version ‖ vin ‖ vout ‖ locktime`, excluding marker, flag and witnesses. -/
def WitnessTx.txid (tx : WitnessTx) : List Nat :=
  sha256d (u32LE tx.legacy_tx.version ++ Vin.ser tx.legacy_tx.vin
    ++ Vout.ser tx.legacy_tx.vout ++ u32LE tx.legacy_tx.locktime)

/-- `WitnessTx::wtxid` (`transactions.rs`): SHA256d over the full witness
serialization. -/
def WitnessTx.wtxid (tx : WitnessTx) : List Nat :=
  sha256d tx.ser

/-- `WitnessTx::hash_prevouts` (`transactions.rs`): the zero digest when the
ACP bit is set, otherwise SHA256d of the concatenated outpoints. -/
def WitnessTx.hash_prevouts (tx : WitnessTx) (sighash_flag : Sighash) : List Nat :=
  if sighash_flag.toByte &&& 0x80 = 0x80 then zeroDigest
  else sha256d (tx.legacy_tx.vin.items.map (fun i => i.outpoint.ser)).flatten

/-- `WitnessTx::hash_sequence` (`transactions.rs`): the zero digest for
`Single` or any ACP mode, otherwise SHA256d of the concatenated LE
sequences. -/
def WitnessTx.hash_sequence (tx : WitnessTx) (sighash_flag : Sighash) : List Nat :=
  if sighash_flag = Sighash.Single ∨ sighash_flag.toByte &&& 0x80 = 0x80 then
    zeroDigest
  else sha256d (tx.legacy_tx.vin.items.map (fun i => u32LE i.sequence)).flatten

/-- `WitnessTx::hash_outputs` (`transactions.rs`): SHA256d of all serialized
outputs for `All`/`AllACP`; SHA256d of the output at `index` for
`Single`/`SingleACP` — indexed WITHOUT a bounds check, so `none` (a panic)
when `index` is out of range; the zero digest for the remaining (`None`)
modes. -/
def WitnessTx.hash_outputs (tx : WitnessTx) (index : Nat)
    (sighash_flag : Sighash) : Option (List Nat) :=
  match sighash_flag with
  | .All | .AllACP =>
      some (sha256d (tx.legacy_tx.vout.items.map TxOut.ser).flatten)
  | .Single | .SingleACP =>
      (match tx.legacy_tx.vout.items.get? index with
       | Option.none => none
       | some out => some (sha256d out.ser))
  | _ => some zeroDigest

/-- `<WitnessTx as WitnessTransaction>::write_witness_sighash_preimage`
(`transactions.rs`): refuse `None`/`NoneACP`; refuse the sighash-single bug;
then index the signed input WITHOUT a bounds check (`none` models the panic)
and assemble the BIP143 preimage. -/
def WitnessTx.write_witness_sighash_preimage (tx : WitnessTx)
    (args : WitnessSighashArgs) : Option (Except TxError (List Nat)) :=
  if args.sighash_flag = Sighash.None ∨ args.sighash_flag = Sighash.NoneACP then
    some (.error .NoneUnsupported)
  else if (args.sighash_flag = Sighash.Single ∨ args.sighash_flag = Sighash.SingleACP)
      ∧ args.index ≥ tx.legacy_tx.vout.items.length then
    some (.error .SighashSingleBug)
  else
    match tx.legacy_tx.vin.items.get? args.index with
    | Option.none => none
    | some input =>
        match tx.hash_outputs args.index args.sighash_flag with
        | Option.none => none
        | some hOutputs =>
            some (.ok (u32LE tx.legacy_tx.version
              ++ tx.hash_prevouts args.sighash_flag
              ++ tx.hash_sequence args.sighash_flag
              ++ input.outpoint.ser
              ++ serBytesVec args.prevout_script
              ++ u64LE args.prevout_value
              ++ u32LE input.sequence
              ++ hOutputs
              ++ u32LE tx.legacy_tx.locktime
              ++ u32LE args.sighash_flag.toByte))

/-- `WitnessTransaction::witness_sighash` for `WitnessTx`: SHA256d of the
BIP143 preimage. -/
def WitnessTx.witness_sighash (tx : WitnessTx) (args : WitnessSighashArgs) :
    Option (Except TxError (List Nat)) :=
  (tx.write_witness_sighash_preimage args).map (Except.map sha256d)

/-! ## Script classification (src/bitcoin/src/types/script.rs and the older
src/src/types/script.rs) -/

/-- `ScriptType` (`src/bitcoin/src/types/script.rs`): standard script
templates with their payloads. -/
inductive ScriptType
  | PKH (hash : List Nat)
  | SH (hash : List Nat)
  | WPKH (hash : List Nat)
  | WSH (hash : List Nat)
  | OP_RETURN (data : List Nat)
  | NonStandard
deriving DecidableEq, Repr

/-- `ScriptPubkey::extract_op_return_data` (`src/bitcoin/src/types/script.rs`):
`6a <n≤75> <n bytes>` with total length `n + 2` yields the payload. -/
def ScriptPubkey.extract_op_return_data (s : ScriptPubkey) : Option (List Nat) :=
  if s.items.length < 2 then none
  else if s.items.getD 0 0 = 0x6a ∧ s.items.getD 1 0 ≤ 75
      ∧ s.items.getD 1 0 = s.items.length - 2 then
    some (s.items.drop 2)
  else none

/-- `ScriptPubkey::standard_type` (`src/bitcoin/src/types/script.rs`):
OP_RETURN detection first, then the four length-keyed patterns. -/
def ScriptPubkey.standard_type (s : ScriptPubkey) : ScriptType :=
  match s.extract_op_return_data with
  | some data => .OP_RETURN data
  | Option.none =>
      let items := s.items
      if items.length = 0x19 then
        if items.take 3 = [0x76, 0xa9, 0x14] ∧ items.drop 0x17 = [0x88, 0xac] then
          .PKH ((items.drop 3).take 20)
        else .NonStandard
      else if items.length = 0x17 then
        if items.take 2 = [0xa9, 0x14] ∧ items.drop 0x16 = [0x87] then
          .SH ((items.drop 2).take 20)
        else .NonStandard
      else if items.length = 0x16 then
        if items.take 2 = [0x00, 0x14] then .WPKH ((items.drop 2).take 20)
        else .NonStandard
      else if items.length = 0x22 then
        if items.take 2 = [0x00, 0x20] then .WSH ((items.drop 2).take 32)
        else .NonStandard
      else .NonStandard

/-- The older crate's `ScriptType` (`src/src/types/script.rs`): no payloads
and no OP_RETURN variant. -/
inductive OldScriptType
  | PKH
  | SH
  | WPKH
  | WSH
  | NonStandard
deriving DecidableEq, Repr

/-- `Script::determine_type` (`src/src/types/script.rs`), translated
literally, including its slice comparisons: `items[0..=2]` is the three-byte
segment `(items.take 3)`, `items[17..=18]` the two-byte segment
`((items.drop 17).take 2)` (decimal indices, as written in the Rust), and a
Rust `[u8] == [u8; N]` comparison of unequal lengths is `false`. -/
def Script.determine_type (s : Script) : OldScriptType :=
  let items := s.items
  if items.length = 0x19 then
    if items.take 3 = [0x76, 0xa9, 0x14] ∧ (items.drop 17).take 2 = [0x88, 0xac] then
      .PKH
    else .NonStandard
  else if items.length = 0x17 then
    if items.take 3 = [0xa9, 0x14] ∧ (items.drop 17).take 2 = [0x87] then
      .SH
    else .NonStandard
  else if items.length = 0x16 then
    if items.take 2 = [0x00, 0x14] then .WPKH else .NonStandard
  else if items.length = 0x22 then
    if items.take 2 = [0x00, 0x20] then .WSH else .NonStandard
  else .NonStandard

/-! ## BIP32 public path derivation (src/bip32/src/model.rs) -/

/-- `Bip32Error` (spec §7), restricted to the variants path derivation can
produce. -/
inductive Bip32Error
  | HardenedDerivationFailed
  | InvalidChildIndex
deriving DecidableEq, Repr

/-- A derivation path: the ordered child indices (hardened iff `≥ 2^31`). -/
abbrev DerivationPath := List Nat

/-- Modelled from the spec: `DerivationPath::last_hardened` (in the
out-of-tree `coins-bip32` path module): the last hardened index of the path,
if any (`derive_public_path` only inspects whether it is present). -/
def DerivationPath.last_hardened (path : DerivationPath) : Option Nat :=
  path.reverse.find? fun i => decide (2147483648 ≤ i)

/-- `DerivePublicChild::derive_public_path` (`src/bip32/src/model.rs`),
generic over the key type and the single-child derivation function: an empty
path derives to self; any hardened segment is refused up front, before any
child derivation; otherwise child derivation is folded left-to-right. -/
def derive_public_path {α : Type} (child : α → Nat → Except Bip32Error α)
    (k : α) (path : DerivationPath) : Except Bip32Error α :=
  if path.isEmpty then .ok k
  else if path.last_hardened.isSome then .error .HardenedDerivationFailed
  else path.foldlM child k

/-! ## PSBT schema composition (src/bitcoin/src/psbt/schema.rs) -/

/-- `PSBTError` (spec §7), restricted to what the schema predicates need. -/
inductive PSBTError
  | InvalidBIP32Path
  | WrongKeyType (expected got : Nat)
  | WrongKeyLength (expected got : Nat)
  | WrongValueLength (expected got : Nat)
deriving DecidableEq, Repr

/-- `KVPredicate` (`schema.rs`): a validation function on a key/value pair. -/
abbrev KVPredicate := List Nat → List Nat → Except PSBTError Unit

/-- `KVTypeSchema` (`schema.rs`): a mapping from key-type byte to its
(possibly composed) predicate, modelled as a lookup function. -/
abbrev KVTypeSchema := Nat → Option KVPredicate

/-- `KVTypeSchema::insert` (`schema.rs`): composes with any predicate
already present — the existing predicate runs first and its failure
short-circuits (`predicate(k, v)?; new(k, v)`). -/
def KVTypeSchema.insert (s : KVTypeSchema) (key_type : Nat)
    (new : KVPredicate) : KVTypeSchema :=
  let updated : KVPredicate :=
    match s key_type with
    | some predicate => fun k v => do predicate k v; new k v
    | Option.none => new
  fun kt => if kt = key_type then some updated else s kt


/-! ## Concrete example values (used by witnesses and test vectors) -/

/-- The legacy transaction of the repository's `it_calculates_legacy_sighashes_and_txids` test. -/
def txBytes1 : List Nat :=
  [1, 0, 0, 0, 1, 129, 63, 121, 1, 26, 203, 128, 146, 93, 254, 105]
  ++ [179, 222, 243, 85, 254, 145, 75, 209, 217, 106, 63, 95, 113, 191, 131, 3]
  ++ [198, 169, 137, 199, 209, 0, 0, 0, 0, 107, 72, 48, 69, 2, 33, 0]
  ++ [237, 129, 255, 25, 46, 117, 163, 253, 35, 4, 0, 77, 202, 219, 116, 111]
  ++ [165, 226, 76, 80, 49, 204, 252, 242, 19, 32, 176, 39, 116, 87, 201, 143]
  ++ [2, 32, 122, 152, 109, 149, 92, 110, 12, 179, 93, 68, 106, 137, 211, 245]
  ++ [97, 0, 244, 215, 246, 120, 1, 195, 25, 103, 116, 58, 156, 142, 16, 97]
  ++ [91, 237, 1, 33, 3, 73, 252, 78, 99, 30, 54, 36, 165, 69, 222, 63]
  ++ [137, 245, 216, 104, 76, 123, 129, 56, 189, 148, 189, 213, 49, 210, 226, 19]
  ++ [191, 1, 107, 39, 138, 254, 255, 255, 255, 2, 161, 53, 239, 1, 0, 0]
  ++ [0, 0, 25, 118, 169, 20, 188, 59, 101, 77, 202, 126, 86, 176, 77, 202]
  ++ [24, 242, 86, 108, 218, 240, 46, 141, 154, 218, 136, 172, 153, 195, 152, 0]
  ++ [0, 0, 0, 0, 25, 118, 169, 20, 28, 75, 199, 98, 221, 84, 35, 227]
  ++ [50, 22, 103, 2, 203, 117, 244, 13, 247, 159, 234, 18, 136, 172, 25, 67]
  ++ [6, 0]

/-- The witness transaction of the repository's `it_calculates_witness_sighashes_and_txids` test. -/
def wtxBytes1 : List Nat :=
  [2, 0, 0, 0, 0, 1, 1, 238, 146, 66, 200, 158, 121, 171, 42, 165]
  ++ [55, 64, 136, 57, 50, 152, 149, 57, 43, 151, 80, 91, 52, 150, 213, 84]
  ++ [61, 109, 47, 83, 27, 148, 210, 0, 0, 0, 0, 0, 253, 255, 255, 255]
  ++ [1, 115, 211, 1, 0, 0, 0, 0, 0, 23, 169, 20, 187, 165, 172, 190]
  ++ [196, 230, 227, 55, 74, 3, 69, 191, 54, 9, 250, 124, 254, 168, 37, 241]
  ++ [135, 0, 202, 253, 7, 0]

/-- The prevout script of the repository's legacy sighash test. -/
def psEx : Script := ⟨.one, [169, 20, 36, 214, 0, 143, 20, 58, 240, 204, 165, 115, 68, 6, 156, 70, 102, 26, 164, 252, 234, 35, 135]⟩

/-- The prevout script of the repository's witness sighash test. -/
def wpsEx : Script := ⟨.one, [0, 20, 117, 140, 229, 80, 56, 13, 150, 64, 81, 8, 103, 152, 214, 84, 107, 235, 220, 162, 122, 115]⟩

/-- A minimal example input spending the null outpoint. -/
def exTxIn : BitcoinTxIn := ⟨⟨List.replicate 32 0, 0⟩, PVec.null, 7⟩

/-- A minimal example output. -/
def exTxOut : TxOut := ⟨50, ⟨.one, [0x51]⟩⟩

/-- A one-input one-output example legacy transaction. -/
def ltxEx : LegacyTx := ⟨1, ⟨.one, [exTxIn]⟩, ⟨.one, [exTxOut]⟩, 0⟩

/-- A two-output variant of `ltxEx`. -/
def ltxEx2 : LegacyTx := ⟨1, ⟨.one, [exTxIn]⟩, ⟨.one, [exTxOut, TxOut.null]⟩, 0⟩

/-- The witness wrapping of `ltxEx`. -/
def wtxEx : WitnessTx := ⟨ltxEx, [PVec.null]⟩

/-- A witness transaction with one input and NO outputs. -/
def wtxNoOut : WitnessTx := ⟨⟨1, ⟨.one, [exTxIn]⟩, ⟨.one, []⟩, 0⟩, [PVec.null]⟩

/-- The byte string of a minimal (empty) legacy transaction. -/
def exLegacyBytes : List Nat := [1, 0, 0, 0, 0, 0, 0, 0, 0, 0]

/-- The byte string of a one-input witness transaction whose only witness is
empty: it still carries the `00 01` marker/flag. -/
def exWitnessBytes : List Nat :=
  [2, 0, 0, 0] ++ [0, 1] ++ [1] ++ (List.replicate 32 0 ++ [0, 0, 0, 0]
    ++ [0] ++ [7, 0, 0, 0]) ++ [0] ++ [0] ++ [0, 0, 0, 0]

/-- An example PSBT key predicate: the key must be 34 bytes. -/
def exPred1 : KVPredicate := fun k _ =>
  if k.length = 34 then .ok () else .error (.WrongKeyLength 34 k.length)

/-- An example PSBT value predicate: the value's length must be a multiple
of four. -/
def exPred2 : KVPredicate := fun _ v =>
  if v.length % 4 = 0 then .ok () else .error .InvalidBIP32Path


/-- Decidable equality for `Except`, needed to evaluate sighash results. -/
instance {e a : Type} [DecidableEq e] [DecidableEq a] : DecidableEq (Except e a) := fun x y =>
  match x, y with
  | .ok u, .ok v =>
      if h : u = v then isTrue (by rw [h]) else isFalse (by simp [h])
  | .error u, .error v =>
      if h : u = v then isTrue (by rw [h]) else isFalse (by simp [h])
  | .ok _, .error _ => isFalse (by simp)
  | .error _, .ok _ => isFalse (by simp)

/-! ## Round-trip lemmas: every successful parse re-serializes byte-exactly -/

/-- A byte string: every element is an actual byte. -/
abbrev AllBytes (b : List Nat) : Prop := ∀ x ∈ b, x < 256

theorem allBytes_of_append_right {u v : List Nat} (h : AllBytes (u ++ v)) :
    AllBytes v := fun x hx => h x (List.mem_append_right u hx)

theorem parseU32LE_ser {b : List Nat} {n : Nat} {rest : List Nat}
    (hb : AllBytes b) (hp : parseU32LE b = some (n, rest)) :
    u32LE n ++ rest = b := by
  match b with
  | b0 :: b1 :: b2 :: b3 :: r =>
    simp only [parseU32LE, Option.some.injEq, Prod.mk.injEq] at hp
    obtain ⟨rfl, rfl⟩ := hp
    have h0 := hb b0 (by simp)
    have h1 := hb b1 (by simp)
    have h2 := hb b2 (by simp)
    have h3 := hb b3 (by simp)
    simp only [u32LE, List.cons_append, List.nil_append, List.cons.injEq]
    exact ⟨by omega, by omega, by omega, by omega, trivial⟩

theorem parseU64LE_ser {b : List Nat} {n : Nat} {rest : List Nat}
    (hb : AllBytes b) (hp : parseU64LE b = some (n, rest)) :
    u64LE n ++ rest = b := by
  match b with
  | b0 :: b1 :: b2 :: b3 :: b4 :: b5 :: b6 :: b7 :: r =>
    simp only [parseU64LE, Option.some.injEq, Prod.mk.injEq] at hp
    obtain ⟨rfl, rfl⟩ := hp
    have h0 := hb b0 (by simp)
    have h1 := hb b1 (by simp)
    have h2 := hb b2 (by simp)
    have h3 := hb b3 (by simp)
    have h4 := hb b4 (by simp)
    have h5 := hb b5 (by simp)
    have h6 := hb b6 (by simp)
    have h7 := hb b7 (by simp)
    simp only [u64LE, List.cons_append, List.nil_append, List.cons.injEq]
    exact ⟨by omega, by omega, by omega, by omega, by omega, by omega, by omega,
      by omega, trivial⟩

theorem parseVarint_ser {b : List Nat} {n : Nat} {fmt : VarFmt} {rest : List Nat}
    (hb : AllBytes b) (hp : parseVarint b = some (n, fmt, rest)) :
    serVarint fmt n ++ rest = b := by
  match b with
  | [] => simp [parseVarint] at hp
  | x :: tail =>
    have hx := hb x (by simp)
    simp only [parseVarint] at hp
    by_cases h1 : x < 0xFD
    · rw [if_pos h1] at hp
      simp only [Option.some.injEq, Prod.mk.injEq] at hp
      obtain ⟨rfl, rfl, rfl⟩ := hp
      rfl
    · rw [if_neg h1] at hp
      by_cases h2 : x = 0xFD
      · rw [if_pos h2] at hp
        match tail with
        | [] => simp at hp
        | [b0] => simp at hp
        | b0 :: b1 :: r =>
          simp only [Option.some.injEq, Prod.mk.injEq] at hp
          obtain ⟨rfl, rfl, rfl⟩ := hp
          have i0 := hb b0 (by simp)
          have i1 := hb b1 (by simp)
          subst h2
          have e0 : (b0 + 256 * b1) % 256 = b0 := by omega
          have e1 : (b0 + 256 * b1) / 256 % 256 = b1 := by omega
          simp [serVarint, e0, e1]
      · rw [if_neg h2] at hp
        by_cases h3 : x = 0xFE
        · rw [if_pos h3] at hp
          rcases hu : parseU32LE tail with _ | ⟨m, r⟩
          · rw [hu] at hp; simp at hp
          · rw [hu] at hp
            simp only [Option.some.injEq, Prod.mk.injEq] at hp
            obtain ⟨rfl, rfl, rfl⟩ := hp
            have := parseU32LE_ser (fun y hy => hb y (by simp [hy])) hu
            subst h3
            simpa [serVarint] using this
        · rw [if_neg h3] at hp
          rcases hu : parseU64LE tail with _ | ⟨m, r⟩
          · rw [hu] at hp; simp at hp
          · rw [hu] at hp
            simp only [Option.some.injEq, Prod.mk.injEq] at hp
            obtain ⟨rfl, rfl, rfl⟩ := hp
            have hx255 : x = 0xFF := by omega
            have := parseU64LE_ser (fun y hy => hb y (by simp [hy])) hu
            subst hx255
            simpa [serVarint] using this

theorem readBytes_spec {k : Nat} {b l rest : List Nat}
    (hp : readBytes k b = some (l, rest)) :
    l ++ rest = b ∧ l.length = k := by
  unfold readBytes at hp
  by_cases h : k ≤ b.length
  · rw [if_pos h] at hp
    simp only [Option.some.injEq, Prod.mk.injEq] at hp
    obtain ⟨rfl, rfl⟩ := hp
    exact ⟨List.take_append_drop k b, List.length_take_of_le h⟩
  · rw [if_neg h] at hp; simp at hp

theorem parseBytesVec_ser {b : List Nat} {s : PVec Nat} {rest : List Nat}
    (hb : AllBytes b) (hp : parseBytesVec b = some (s, rest)) :
    serBytesVec s ++ rest = b := by
  unfold parseBytesVec at hp
  split at hp
  · exact absurd hp (by simp)
  · rename_i n fmt r hv
    split at hp
    · exact absurd hp (by simp)
    · rename_i items r' hr
      simp only [Option.some.injEq, Prod.mk.injEq] at hp
      obtain ⟨rfl, rfl⟩ := hp
      obtain ⟨happ, hlen⟩ := readBytes_spec hr
      have hv' := parseVarint_ser hb hv
      simp only [serBytesVec, hlen]
      rw [List.append_assoc, happ, hv']

theorem outpoint_parse_ser {b : List Nat} {o : BitcoinOutpoint} {rest : List Nat}
    (hb : AllBytes b) (hp : BitcoinOutpoint.parse b = some (o, rest)) :
    o.ser ++ rest = b := by
  unfold BitcoinOutpoint.parse at hp
  split at hp
  · exact absurd hp (by simp)
  · rename_i txid r hr
    split at hp
    · exact absurd hp (by simp)
    · rename_i idx r' hu
      simp only [Option.some.injEq, Prod.mk.injEq] at hp
      obtain ⟨rfl, rfl⟩ := hp
      obtain ⟨happ, _⟩ := readBytes_spec hr
      have hu' := parseU32LE_ser (allBytes_of_append_right (happ ▸ hb)) hu
      simp only [BitcoinOutpoint.ser]
      rw [List.append_assoc, hu', happ]

theorem txin_parse_ser {b : List Nat} {i : BitcoinTxIn} {rest : List Nat}
    (hb : AllBytes b) (hp : BitcoinTxIn.parse b = some (i, rest)) :
    i.ser ++ rest = b := by
  unfold BitcoinTxIn.parse at hp
  split at hp
  · exact absurd hp (by simp)
  · rename_i o r ho
    split at hp
    · exact absurd hp (by simp)
    · rename_i ss r' hss
      split at hp
      · exact absurd hp (by simp)
      · rename_i seq r'' hseq
        simp only [Option.some.injEq, Prod.mk.injEq] at hp
        obtain ⟨rfl, rfl⟩ := hp
        have ho' := outpoint_parse_ser hb ho
        have hbr : AllBytes r := allBytes_of_append_right (ho' ▸ hb)
        have hss' := parseBytesVec_ser hbr hss
        have hbr' : AllBytes r' := allBytes_of_append_right (hss' ▸ hbr)
        have hseq' := parseU32LE_ser hbr' hseq
        simp only [BitcoinTxIn.ser]
        rw [List.append_assoc, List.append_assoc, hseq', hss', ho']

theorem txout_parse_ser {b : List Nat} {o : TxOut} {rest : List Nat}
    (hb : AllBytes b) (hp : TxOut.parse b = some (o, rest)) :
    o.ser ++ rest = b := by
  unfold TxOut.parse at hp
  split at hp
  · exact absurd hp (by simp)
  · rename_i v r hv
    split at hp
    · exact absurd hp (by simp)
    · rename_i spk r' hspk
      simp only [Option.some.injEq, Prod.mk.injEq] at hp
      obtain ⟨rfl, rfl⟩ := hp
      have hv' := parseU64LE_ser hb hv
      have hbr : AllBytes r := allBytes_of_append_right (hv' ▸ hb)
      have hspk' := parseBytesVec_ser hbr hspk
      simp only [TxOut.ser]
      rw [List.append_assoc, hspk', hv']

theorem parseCount_ser {α : Type} {p : List Nat → Option (α × List Nat)}
    {f : α → List Nat}
    (H : ∀ {b v rest}, AllBytes b → p b = some (v, rest) → f v ++ rest = b) :
    ∀ {n : Nat} {b : List Nat} {l : List α} {rest : List Nat},
      AllBytes b → parseCount p n b = some (l, rest) →
      (l.map f).flatten ++ rest = b ∧ l.length = n := by
  intro n
  induction n with
  | zero =>
      intro b l rest hb hp
      simp only [parseCount, Option.some.injEq, Prod.mk.injEq] at hp
      obtain ⟨rfl, rfl⟩ := hp
      simp
  | succ m ih =>
      intro b l rest hb hp
      unfold parseCount at hp
      split at hp
      · exact absurd hp (by simp)
      · rename_i a r ha
        split at hp
        · exact absurd hp (by simp)
        · rename_i l' r' hl
          simp only [Option.some.injEq, Prod.mk.injEq] at hp
          obtain ⟨rfl, rfl⟩ := hp
          have ha' := H hb ha
          have hbr : AllBytes r := allBytes_of_append_right (ha' ▸ hb)
          obtain ⟨ihe, ihl⟩ := ih hbr hl
          constructor
          · simp only [List.map_cons, List.flatten_cons]
            rw [List.append_assoc, ihe, ha']
          · simp [ihl]

theorem pvec_parse_ser {α : Type} {p : List Nat → Option (α × List Nat)}
    {f : α → List Nat}
    (H : ∀ {b v rest}, AllBytes b → p b = some (v, rest) → f v ++ rest = b)
    {b : List Nat} {v : PVec α} {rest : List Nat}
    (hb : AllBytes b) (hp : PVec.parse p b = some (v, rest)) :
    PVec.ser f v ++ rest = b := by
  unfold PVec.parse at hp
  split at hp
  · exact absurd hp (by simp)
  · rename_i n fmt r hv
    split at hp
    · exact absurd hp (by simp)
    · rename_i l r' hl
      simp only [Option.some.injEq, Prod.mk.injEq] at hp
      obtain ⟨rfl, rfl⟩ := hp
      have hv' := parseVarint_ser hb hv
      have hbr : AllBytes r := allBytes_of_append_right (hv' ▸ hb)
      obtain ⟨he, hlen⟩ := parseCount_ser H hbr hl
      simp only [PVec.ser, hlen]
      rw [List.append_assoc, he, hv']

theorem legacyTx_parse_ser {b : List Nat} {tx : LegacyTx} {rest : List Nat}
    (hb : AllBytes b) (hp : LegacyTx.parse b = some (tx, rest)) :
    tx.ser ++ rest = b := by
  unfold LegacyTx.parse at hp
  split at hp
  · exact absurd hp (by simp)
  · rename_i version r hver
    split at hp
    · exact absurd hp (by simp)
    · rename_i vin r' hvin
      split at hp
      · exact absurd hp (by simp)
      · rename_i vout r'' hvout
        split at hp
        · exact absurd hp (by simp)
        · rename_i locktime r''' hlock
          simp only [Option.some.injEq, Prod.mk.injEq] at hp
          obtain ⟨rfl, rfl⟩ := hp
          have hver' := parseU32LE_ser hb hver
          have hbr : AllBytes r := allBytes_of_append_right (hver' ▸ hb)
          have hvin' := pvec_parse_ser (fun h e => txin_parse_ser h e) hbr hvin
          have hbr' : AllBytes r' := allBytes_of_append_right (hvin' ▸ hbr)
          have hvout' := pvec_parse_ser (fun h e => txout_parse_ser h e) hbr' hvout
          have hbr'' : AllBytes r'' := allBytes_of_append_right (hvout' ▸ hbr')
          have hlock' := parseU32LE_ser hbr'' hlock
          simp only [LegacyTx.ser, Vin.ser, Vout.ser]
          rw [List.append_assoc, List.append_assoc, List.append_assoc,
            hlock', hvout', hvin', hver']

theorem witness_parse_ser {b : List Nat} {w : Witness} {rest : List Nat}
    (hb : AllBytes b) (hp : Witness.parse b = some (w, rest)) :
    Witness.ser w ++ rest = b :=
  pvec_parse_ser (fun h e => parseBytesVec_ser h e) hb hp

theorem witnessTx_parse_ser {b : List Nat} {tx : WitnessTx} {rest : List Nat}
    (hb : AllBytes b) (hp : WitnessTx.parse b = some (tx, rest)) :
    tx.ser ++ rest = b := by
  unfold WitnessTx.parse at hp
  split at hp
  · exact absurd hp (by simp)
  · rename_i version r hver
    have hver' := parseU32LE_ser hb hver
    have hbr : AllBytes r := allBytes_of_append_right (hver' ▸ hb)
    split at hp
    · rename_i r'
      split at hp
      · exact absurd hp (by simp)
      · rename_i vin r'' hvin
        split at hp
        · exact absurd hp (by simp)
        · rename_i vout r₃ hvout
          split at hp
          · exact absurd hp (by simp)
          · rename_i witnesses r₄ hwit
            split at hp
            · exact absurd hp (by simp)
            · rename_i locktime r₅ hlock
              simp only [Option.some.injEq, Prod.mk.injEq] at hp
              obtain ⟨rfl, rfl⟩ := hp
              have hbr' : AllBytes r' := fun x hx => hbr x (by simp [hx])
              have hvin' := pvec_parse_ser (fun h e => txin_parse_ser h e) hbr' hvin
              have hbr'' : AllBytes r'' := allBytes_of_append_right (hvin' ▸ hbr')
              have hvout' := pvec_parse_ser (fun h e => txout_parse_ser h e) hbr'' hvout
              have hbr₃ : AllBytes r₃ := allBytes_of_append_right (hvout' ▸ hbr'')
              obtain ⟨hwit', _⟩ :=
                parseCount_ser (fun h e => witness_parse_ser h e) hbr₃ hwit
              have hbr₄ : AllBytes r₄ := allBytes_of_append_right (hwit' ▸ hbr₃)
              have hlock' := parseU32LE_ser hbr₄ hlock
              simp only [WitnessTx.ser, Vin.ser, Vout.ser]
              rw [List.append_assoc, List.append_assoc, List.append_assoc,
                List.append_assoc, hlock', hwit', hvout', hvin']
              simpa using hver'
    · exact absurd hp (by simp)

/-- C4: for every byte string that deserializes successfully as a `LegacyTx`
or as a `WitnessTx`, re-serializing the parsed value reproduces the input
byte-exactly; and every witness transaction — in particular one whose
witnesses are all empty — serializes with the `0x00 0x01` marker/flag right
after the version. -/
theorem claim_C4 :
    (∀ (b : List Nat) (tx : LegacyTx), AllBytes b →
        LegacyTx.parse b = some (tx, []) → tx.ser = b)
    ∧ (∀ (b : List Nat) (tx : WitnessTx), AllBytes b →
        WitnessTx.parse b = some (tx, []) → tx.ser = b)
    ∧ (∀ tx : WitnessTx, ∃ t, tx.ser = u32LE tx.legacy_tx.version ++ 0 :: 1 :: t) := by
  refine ⟨?_, ?_, ?_⟩
  · intro b tx hb hp
    have := legacyTx_parse_ser hb hp
    simpa using this
  · intro b tx hb hp
    have := witnessTx_parse_ser hb hp
    simpa using this
  · intro tx
    exact ⟨Vin.ser tx.legacy_tx.vin ++ Vout.ser tx.legacy_tx.vout
      ++ (tx.witnesses.map Witness.ser).flatten ++ u32LE tx.legacy_tx.locktime,
      by simp [WitnessTx.ser]⟩

/-- C4 witness: both round-trip statements evaluated at concrete byte
strings (the witness one has a single input whose witness stack is empty,
and indeed re-serializes with its marker bytes). -/
theorem claim_C4_witness :
    AllBytes exLegacyBytes
    ∧ LegacyTx.parse exLegacyBytes = some (⟨1, ⟨.one, []⟩, ⟨.one, []⟩, 0⟩, [])
    ∧ (⟨1, ⟨.one, []⟩, ⟨.one, []⟩, 0⟩ : LegacyTx).ser = exLegacyBytes
    ∧ AllBytes exWitnessBytes
    ∧ WitnessTx.parse exWitnessBytes
        = some (⟨⟨2, ⟨.one, [exTxIn]⟩, ⟨.one, []⟩, 0⟩, [PVec.null]⟩, [])
    ∧ (⟨⟨2, ⟨.one, [exTxIn]⟩, ⟨.one, []⟩, 0⟩, [PVec.null]⟩ : WitnessTx).ser
        = exWitnessBytes := by
  have h1 : AllBytes exLegacyBytes := by decide
  have h2 : LegacyTx.parse exLegacyBytes = some (⟨1, ⟨.one, []⟩, ⟨.one, []⟩, 0⟩, []) := by
    decide
  have h3 : AllBytes exWitnessBytes := by decide
  have h4 : WitnessTx.parse exWitnessBytes
      = some (⟨⟨2, ⟨.one, [exTxIn]⟩, ⟨.one, []⟩, 0⟩, [PVec.null]⟩, []) := by decide
  exact ⟨h1, h2, claim_C4.1 exLegacyBytes _ h1 h2, h3, h4,
    claim_C4.2.1 exWitnessBytes _ h3 h4⟩

set_option maxRecDepth 100000 in
/-- Test vector (repository test `it_calculates_legacy_sighashes_and_txids`):
the parsed transaction's txid. -/
theorem legacy_txid_vector :
    (LegacyTx.parse txBytes1).map (fun p => p.1.txid) =
      some [0x03, 0xee, 0x4f, 0x7a, 0x4e, 0x68, 0xf8, 0x02, 0x30, 0x3b, 0xc6,
            0x59, 0xf8, 0xf8, 0x17, 0x96, 0x4b, 0x4b, 0x74, 0xfe, 0x04, 0x6f,
            0xac, 0xc3, 0xae, 0x1b, 0xe4, 0x67, 0x9d, 0x62, 0x2c, 0x45] := by
  decide

set_option maxRecDepth 100000 in
/-- Test vector: the legacy `SIGHASH_ALL` digest of the repository test. -/
theorem legacy_sighash_all_vector :
    (LegacyTx.parse txBytes1).map
        (fun p => p.1.legacy_sighash ⟨0, Sighash.All, psEx⟩) =
      some (some (Except.ok
        [0xb8, 0x5c, 0x4f, 0x8d, 0x13, 0x77, 0xcc, 0x13, 0x82, 0x25, 0xdd,
         0x9b, 0x31, 0x9d, 0x0a, 0x4c, 0xa5, 0x47, 0xf7, 0x88, 0x42, 0x70,
         0x64, 0x0f, 0x44, 0xc5, 0xfc, 0xdf, 0x26, 0x9e, 0x0f, 0xe8])) := by
  decide

set_option maxRecDepth 100000 in
/-- Test vector (repository test `it_calculates_witness_sighashes_and_txids`):
the parsed witness transaction's txid and its BIP143 `SIGHASH_SINGLE` digest. -/
theorem witness_sighash_single_vector :
    (WitnessTx.parse wtxBytes1).map
        (fun p => (p.1.txid, p.1.witness_sighash ⟨0, Sighash.Single, wpsEx, 120000⟩)) =
      some ([0x9e, 0x77, 0x08, 0x73, 0x21, 0xb8, 0x70, 0x85, 0x9e, 0xbf, 0x08,
             0x97, 0x6d, 0x66, 0x5c, 0x42, 0xd9, 0xf9, 0x8c, 0xad, 0x18, 0xff,
             0xf6, 0xa0, 0x5a, 0x91, 0xc1, 0xd2, 0xda, 0x6d, 0x6c, 0x41],
        some (Except.ok
          [0xd0, 0x46, 0x31, 0xd2, 0x74, 0x2e, 0x6f, 0xd8, 0xe8, 0x0e, 0x2e,
           0x43, 0x09, 0xde, 0xce, 0x65, 0xbe, 0xcc, 0xa4, 0x1d, 0x37, 0xfd,
           0x6b, 0xc0, 0xbc, 0xba, 0x04, 0x1c, 0x52, 0xd8, 0x24, 0xd5])) := by
  decide

/-- C7: a witness transaction's txid is the SHA256d of the legacy
(witness-stripped) serialization — the txid of `without_witness()` — so
adding or changing witnesses never changes the txid. -/
theorem claim_C7 :
    ∀ w : WitnessTx,
      w.txid = sha256d w.without_witness.ser
      ∧ w.txid = w.without_witness.txid
      ∧ ∀ ws : List Witness, (WitnessTx.mk w.legacy_tx ws).txid = w.txid := by
  intro w
  refine ⟨?_, ?_, fun ws => ?_⟩
  · simp [WitnessTx.txid, WitnessTx.without_witness, LegacyTx.ser]
  · simp [WitnessTx.txid, WitnessTx.without_witness, LegacyTx.txid, LegacyTx.ser]
  · simp [WitnessTx.txid]

/-- C8 counterexample: the explicit-witness constructor
(`WitnessTransaction::new`) stores the caller's witness vector unchanged, so
a witness count different from the input count survives construction. -/
theorem claim_C8_counterexample :
    ¬ ((WitnessTx.wtx_new 2 [] [] [Witness.null] 0).witnesses.length
        = (WitnessTx.wtx_new 2 [] [] [Witness.null] 0).legacy_tx.vin.items.length) := by
  decide

/-- The count-limited parser returns exactly as many items as requested. -/
theorem parseCount_length {α : Type} {p : List Nat → Option (α × List Nat)} :
    ∀ {n : Nat} {b : List Nat} {l : List α} {rest : List Nat},
      parseCount p n b = some (l, rest) → l.length = n := by
  intro n
  induction n with
  | zero =>
      intro b l rest hp
      simp only [parseCount, Option.some.injEq, Prod.mk.injEq] at hp
      obtain ⟨rfl, rfl⟩ := hp
      rfl
  | succ m ih =>
      intro b l rest hp
      unfold parseCount at hp
      split at hp
      · exact absurd hp (by simp)
      · rename_i a r ha
        split at hp
        · exact absurd hp (by simp)
        · rename_i l' r' hl
          simp only [Option.some.injEq, Prod.mk.injEq] at hp
          obtain ⟨rfl, rfl⟩ := hp
          simp [ih hl]

/-- C8 (amended): the `Transaction::new` constructor and deserialization do
guarantee `witnesses.len() == inputs.len()`; the explicit-witness
`WitnessTransaction::new` constructor stores the given witness vector
unchanged, so its result satisfies the invariant only when the caller
passes matching lengths. -/
theorem claim_C8 :
    (∀ (version : Nat) (vin : List BitcoinTxIn) (vout : List TxOut) (locktime : Nat),
        (WitnessTx.tx_new version vin vout locktime).witnesses.length
          = (WitnessTx.tx_new version vin vout locktime).legacy_tx.vin.items.length)
    ∧ (∀ (b : List Nat) (tx : WitnessTx) (rest : List Nat),
        WitnessTx.parse b = some (tx, rest) →
        tx.witnesses.length = tx.legacy_tx.vin.items.length)
    ∧ (∀ (version : Nat) (vin : List BitcoinTxIn) (vout : List TxOut)
        (witnesses : List Witness) (locktime : Nat),
        (WitnessTx.wtx_new version vin vout witnesses locktime).witnesses
          = witnesses) := by
  refine ⟨?_, ?_, ?_⟩
  · intro version vin vout locktime
    simp [WitnessTx.tx_new, LegacyTx.new, PVec.fromList]
  · intro b tx rest hp
    unfold WitnessTx.parse at hp
    split at hp
    · exact absurd hp (by simp)
    · rename_i version r hver
      split at hp
      · rename_i r'
        split at hp
        · exact absurd hp (by simp)
        · rename_i vin r'' hvin
          split at hp
          · exact absurd hp (by simp)
          · rename_i vout r₃ hvout
            split at hp
            · exact absurd hp (by simp)
            · rename_i witnesses r₄ hwit
              split at hp
              · exact absurd hp (by simp)
              · rename_i locktime r₅ hlock
                simp only [Option.some.injEq, Prod.mk.injEq] at hp
                obtain ⟨rfl, rfl⟩ := hp
                exact parseCount_length hwit
      · exact absurd hp (by simp)
  · intro version vin vout witnesses locktime
    rfl

/-- C8 witness: the three parts applied at concrete inputs. -/
theorem claim_C8_witness :
    (WitnessTx.tx_new 1 [exTxIn] [exTxOut] 0).witnesses.length
        = (WitnessTx.tx_new 1 [exTxIn] [exTxOut] 0).legacy_tx.vin.items.length
    ∧ (⟨⟨2, ⟨.one, [exTxIn]⟩, ⟨.one, []⟩, 0⟩, [PVec.null]⟩ : WitnessTx).witnesses.length
        = (⟨⟨2, ⟨.one, [exTxIn]⟩, ⟨.one, []⟩, 0⟩, [PVec.null]⟩ : WitnessTx).legacy_tx.vin.items.length
    ∧ (WitnessTx.wtx_new 2 [] [] [Witness.null] 0).witnesses = [Witness.null] :=
  ⟨claim_C8.1 1 [exTxIn] [exTxOut] 0,
   claim_C8.2.1 exWitnessBytes _ [] (by decide),
   claim_C8.2.2 2 [] [] [Witness.null] 0⟩

/-- C5: the newer `ScriptPubkey::standard_type` classifies the canonical
23-byte P2SH script and the canonical 25-byte P2PKH script as the spec's
table demands, but the older `Script::determine_type` contradicts it on the
same inputs: its P2SH arm compares a three-byte slice against the two-byte
array `[0xa9, 0x14]` (always false), and its P2PKH arm checks the suffix
bytes at decimal offsets 17/18 instead of 0x17/0x18 — both canonical scripts
come back `NonStandard`. -/
theorem claim_C5_code_divergence :
    ScriptPubkey.standard_type
        ⟨.one, [0xa9, 0x14, 1, 2, 3, 4, 5, 6, 7, 8, 9, 10, 11, 12, 13, 14, 15,
                16, 17, 18, 19, 20, 0x87]⟩
      = ScriptType.SH [1, 2, 3, 4, 5, 6, 7, 8, 9, 10, 11, 12, 13, 14, 15, 16,
                       17, 18, 19, 20]
    ∧ Script.determine_type
        ⟨.one, [0xa9, 0x14, 1, 2, 3, 4, 5, 6, 7, 8, 9, 10, 11, 12, 13, 14, 15,
                16, 17, 18, 19, 20, 0x87]⟩
      = OldScriptType.NonStandard
    ∧ ScriptPubkey.standard_type
        ⟨.one, [0x76, 0xa9, 0x14, 1, 2, 3, 4, 5, 6, 7, 8, 9, 10, 11, 12, 13,
                14, 15, 16, 17, 18, 19, 20, 0x88, 0xac]⟩
      = ScriptType.PKH [1, 2, 3, 4, 5, 6, 7, 8, 9, 10, 11, 12, 13, 14, 15, 16,
                        17, 18, 19, 20]
    ∧ Script.determine_type
        ⟨.one, [0x76, 0xa9, 0x14, 1, 2, 3, 4, 5, 6, 7, 8, 9, 10, 11, 12, 13,
                14, 15, 16, 17, 18, 19, 20, 0x88, 0xac]⟩
      = OldScriptType.NonStandard := by
  refine ⟨by decide, by decide, by decide, by decide⟩

/-- The hardened-segment detector fires exactly when the path contains a
hardened (`≥ 2^31`) index. -/
theorem last_hardened_isSome {path : DerivationPath} :
    path.last_hardened.isSome ↔ ∃ i ∈ path, 2147483648 ≤ i := by
  unfold DerivationPath.last_hardened
  rw [List.find?_isSome]
  simp [List.mem_reverse]

/-- C6: on an extended public key, path derivation refuses any path that
contains a hardened index — returning `HardenedDerivationFailed` no matter
what the child-derivation function would do, hence before any child
derivation — and folds child derivation left-to-right over hardened-free
paths. -/
theorem claim_C6 :
    ∀ {α : Type} (child : α → Nat → Except Bip32Error α) (k : α)
      (path : DerivationPath),
      ((∃ i ∈ path, 2147483648 ≤ i) →
        derive_public_path child k path = .error .HardenedDerivationFailed)
      ∧ ((∀ i ∈ path, i < 2147483648) →
        derive_public_path child k path = path.foldlM child k) := by
  intro α child k path
  constructor
  · rintro ⟨i, hi, hh⟩
    have hne : ¬ path.isEmpty := by
      rcases path with _ | _
      · simp at hi
      · simp
    have hs : path.last_hardened.isSome := last_hardened_isSome.mpr ⟨i, hi, hh⟩
    unfold derive_public_path
    rw [if_neg hne, if_pos hs]
  · intro h
    by_cases hp : path.isEmpty
    · have : path = [] := by simpa [List.isEmpty_iff] using hp
      subst this
      rfl
    · have hs : ¬ path.last_hardened.isSome := by
        intro hs
        obtain ⟨i, hi, hh⟩ := last_hardened_isSome.mp hs
        exact absurd (h i hi) (by omega)
      unfold derive_public_path
      rw [if_neg hp, if_neg hs]

/-- C6 witness: a hardened path is refused regardless of the child function;
a hardened-free path is the left fold. -/
theorem claim_C6_witness :
    derive_public_path (fun (s : Nat) i => Except.ok (s + i)) 5 [0, 2147483648, 1]
        = .error .HardenedDerivationFailed
    ∧ derive_public_path (fun (s : Nat) i => Except.ok (s + i)) 5 [1, 2, 3]
        = [1, 2, 3].foldlM (fun (s : Nat) i => Except.ok (s + i)) 5 :=
  ⟨(claim_C6 (fun (s : Nat) i => Except.ok (s + i)) 5 [0, 2147483648, 1]).1
      ⟨2147483648, by simp, by omega⟩,
   (claim_C6 (fun (s : Nat) i => Except.ok (s + i)) 5 [1, 2, 3]).2 (by decide)⟩

/-- C9: inserting `p1` and then `p2` for the same key type stores their
conjunction in insertion order: the composed predicate accepts exactly when
both accept, `p1` runs first, and the first failure's error is returned. -/
theorem claim_C9 :
    ∀ (s : KVTypeSchema) (key_type : Nat) (p1 p2 : KVPredicate),
      s key_type = none →
      ∃ q, KVTypeSchema.insert (KVTypeSchema.insert s key_type p1) key_type p2 key_type
            = some q
        ∧ ∀ (k v : List Nat),
            (q k v = (do p1 k v; p2 k v))
            ∧ (q k v = .ok () ↔ (p1 k v = .ok () ∧ p2 k v = .ok ()))
            ∧ (∀ e, p1 k v = .error e → q k v = .error e)
            ∧ (∀ e, p1 k v = .ok () → p2 k v = .error e → q k v = .error e) := by
  intro s kt p1 p2 hnone
  have h1 : KVTypeSchema.insert s kt p1 kt = some p1 := by
    simp [KVTypeSchema.insert, hnone]
  refine ⟨fun k v => do p1 k v; p2 k v, ?_, ?_⟩
  · simp [KVTypeSchema.insert, hnone]
  · intro k v
    refine ⟨rfl, ?_, ?_, ?_⟩
    · cases hp : p1 k v with
      | error e => simp [hp, Bind.bind, Except.bind]
      | ok u =>
          cases u
          cases hq : p2 k v with
          | error e => simp [hp, hq, Bind.bind, Except.bind]
          | ok w => cases w; simp [hp, hq, Bind.bind, Except.bind]
    · intro e hp
      simp [hp, Bind.bind, Except.bind]
    · intro e hp hq
      simp [hp, hq, Bind.bind, Except.bind]

/-- C9 witness: the composition evaluated for two concrete predicates at a
concrete key/value pair. -/
theorem claim_C9_witness :
    ∃ q, KVTypeSchema.insert (KVTypeSchema.insert (fun _ => none) 6 exPred1) 6 exPred2 6
          = some q
      ∧ ∀ (k v : List Nat),
          (q k v = (do exPred1 k v; exPred2 k v))
          ∧ (q k v = .ok () ↔ (exPred1 k v = .ok () ∧ exPred2 k v = .ok ()))
          ∧ (∀ e, exPred1 k v = .error e → q k v = .error e)
          ∧ (∀ e, exPred1 k v = .ok () → exPred2 k v = .error e → q k v = .error e) :=
  claim_C9 (fun _ => none) 6 exPred1 exPred2 rfl

/-- Evaluating the `SIGHASH_SINGLE` modification when the signed index has
an output: the result truncates the outputs and zeroes the other sequences. -/
theorem legacy_sighash_single_eq (t : LegacyTx) (index : Nat) (out : TxOut)
    (h : t.vout.items[index]? = some out) :
    t.legacy_sighash_single index = some
      ⟨t.version,
       PVec.fromList (List.mapIdx
         (fun i txin => if i ≠ index then { txin with sequence := 0 } else txin)
         t.vin.items),
       PVec.fromList (List.replicate index TxOut.null ++ [out]),
       t.locktime⟩ := by
  unfold LegacyTx.legacy_sighash_single
  rw [show t.vout.items.get? index = some out by
    rw [List.get?_eq_getElem?]; exact h]

/-- C1: with mode `SINGLE` or `SINGLE|ACP` at a valid index, the modified
transaction built by the legacy `SIGHASH_SINGLE` step — which is what the
preimage then serializes (directly for `SINGLE`; after the ACP vin
replacement for `SINGLE|ACP`) — has its outputs truncated to `index + 1`
entries, every output below the signed index replaced by the null `TxOut`,
the output at the signed index kept unchanged, and the sequence of every
input other than the signed one set to zero (the signed one keeps its
sequence). -/
theorem claim_C1 :
    ∀ (tx : LegacyTx) (index : Nat) (s : Script),
      index < tx.vout.items.length → index < tx.vin.items.length →
      ∃ m : LegacyTx,
        (tx.legacy_sighash_prep index s).legacy_sighash_single index = some m
        ∧ m.vout.items.length = index + 1
        ∧ (∀ i, i < index → m.vout.items[i]? = some TxOut.null)
        ∧ m.vout.items[index]? = tx.vout.items[index]?
        ∧ m.vin.items.length = tx.vin.items.length
        ∧ (∀ i, i < tx.vin.items.length → i ≠ index →
            m.vin.items[i]?.map BitcoinTxIn.sequence = some 0)
        ∧ m.vin.items[index]?.map BitcoinTxIn.sequence
            = tx.vin.items[index]?.map BitcoinTxIn.sequence
        ∧ tx.write_sighash_preimage ⟨index, Sighash.Single, s⟩
            = some (.ok (m.ser ++ u32LE 3))
        ∧ ∃ macp, m.legacy_sighash_anyone_can_pay index = some macp
            ∧ tx.write_sighash_preimage ⟨index, Sighash.SingleACP, s⟩
                = some (.ok (macp.ser ++ u32LE 0x83)) := by
  intro tx index s hvout hvin
  obtain ⟨out, hout⟩ : ∃ out, tx.vout.items[index]? = some out :=
    ⟨_, List.getElem?_eq_getElem hvout⟩
  have hout' : (tx.legacy_sighash_prep index s).vout.items[index]? = some out := hout
  have single_eq := legacy_sighash_single_eq (tx.legacy_sighash_prep index s)
    index out hout'
  refine ⟨_, single_eq, ?_, ?_, ?_, ?_, ?_, ?_, ?_, ?_⟩
  · simp [PVec.fromList]
  · intro i hi
    simp only [PVec.fromList]
    rw [List.getElem?_append_left (by simpa using hi)]
    simp [hi]
  · simp only [PVec.fromList]
    rw [List.getElem?_append_right (by simp), hout]
    simp
  · simp [PVec.fromList, LegacyTx.legacy_sighash_prep]
  · intro i hi hne
    simp only [PVec.fromList]
    rw [List.getElem?_mapIdx]
    have hpre : (tx.legacy_sighash_prep index s).vin.items[i]?
        = tx.vin.items[i]?.map (fun txin =>
            { txin with script_sig :=
                if i = index then PVec.fromList s.items else PVec.null }) := by
      simp [LegacyTx.legacy_sighash_prep, List.getElem?_mapIdx]
    rw [hpre]
    obtain ⟨txin, htxin⟩ : ∃ txin, tx.vin.items[i]? = some txin :=
      ⟨_, List.getElem?_eq_getElem hi⟩
    simp [htxin, hne]
  · simp only [PVec.fromList]
    rw [List.getElem?_mapIdx]
    have hpre : (tx.legacy_sighash_prep index s).vin.items[index]?
        = tx.vin.items[index]?.map (fun txin =>
            { txin with script_sig :=
                if index = index then PVec.fromList s.items else PVec.null }) := by
      simp [LegacyTx.legacy_sighash_prep, List.getElem?_mapIdx]
    rw [hpre]
    obtain ⟨txin, htxin⟩ : ∃ txin, tx.vin.items[index]? = some txin :=
      ⟨_, List.getElem?_eq_getElem hvin⟩
    simp [htxin]
  · unfold LegacyTx.write_sighash_preimage
    dsimp only
    rw [if_neg (show ¬(Sighash.Single = Sighash.None ∨ Sighash.Single = Sighash.NoneACP)
      by simp)]
    rw [if_pos (show Sighash.Single = Sighash.Single ∨ Sighash.Single = Sighash.SingleACP
      from Or.inl rfl)]
    rw [if_neg (Nat.not_le.mpr hvout)]
    rw [single_eq]
    dsimp only
    rw [if_neg (show ¬(Sighash.Single.toByte &&& 0x80 = 0x80) by decide)]
    rfl
  · have hlen : (List.mapIdx
        (fun i txin => if i ≠ index then { txin with sequence := 0 } else txin)
        (tx.legacy_sighash_prep index s).vin.items).length = tx.vin.items.length := by
      simp [LegacyTx.legacy_sighash_prep]
    obtain ⟨macp, hmacp⟩ :
        ∃ macp, (List.mapIdx
            (fun i txin => if i ≠ index then { txin with sequence := 0 } else txin)
            (tx.legacy_sighash_prep index s).vin.items)[index]? = some macp :=
      ⟨_, List.getElem?_eq_getElem (by omega)⟩
    have hacp : LegacyTx.legacy_sighash_anyone_can_pay
        ⟨(tx.legacy_sighash_prep index s).version,
         PVec.fromList (List.mapIdx
           (fun i txin => if i ≠ index then { txin with sequence := 0 } else txin)
           (tx.legacy_sighash_prep index s).vin.items),
         PVec.fromList (List.replicate index TxOut.null ++ [out]),
         (tx.legacy_sighash_prep index s).locktime⟩ index
        = some
          ⟨(tx.legacy_sighash_prep index s).version,
           PVec.fromList [macp],
           PVec.fromList (List.replicate index TxOut.null ++ [out]),
           (tx.legacy_sighash_prep index s).locktime⟩ := by
      unfold LegacyTx.legacy_sighash_anyone_can_pay
      rw [show (PVec.fromList (List.mapIdx
          (fun i txin => if i ≠ index then { txin with sequence := 0 } else txin)
          (tx.legacy_sighash_prep index s).vin.items) : Vin).items.get? index
            = some macp by rw [List.get?_eq_getElem?]; exact hmacp]
    refine ⟨_, hacp, ?_⟩
    unfold LegacyTx.write_sighash_preimage
    dsimp only
    rw [if_neg (show ¬(Sighash.SingleACP = Sighash.None ∨ Sighash.SingleACP = Sighash.NoneACP)
      by simp)]
    rw [if_pos (show Sighash.SingleACP = Sighash.Single ∨ Sighash.SingleACP = Sighash.SingleACP
      from Or.inr rfl)]
    rw [if_neg (Nat.not_le.mpr hvout)]
    rw [single_eq]
    dsimp only
    rw [if_pos (show Sighash.SingleACP.toByte &&& 0x80 = 0x80 by decide), hacp]
    rfl

/-- C1 witness: the single-mode preimage transformation evaluated on a
concrete one-input one-output transaction at index 0. -/
theorem claim_C1_witness :
    0 < ltxEx.vout.items.length ∧ 0 < ltxEx.vin.items.length
    ∧ ∃ m : LegacyTx,
        (ltxEx.legacy_sighash_prep 0 psEx).legacy_sighash_single 0 = some m
        ∧ m.vout.items.length = 0 + 1
        ∧ (∀ i, i < 0 → m.vout.items[i]? = some TxOut.null)
        ∧ m.vout.items[0]? = ltxEx.vout.items[0]?
        ∧ m.vin.items.length = ltxEx.vin.items.length
        ∧ (∀ i, i < ltxEx.vin.items.length → i ≠ 0 →
            m.vin.items[i]?.map BitcoinTxIn.sequence = some 0)
        ∧ m.vin.items[0]?.map BitcoinTxIn.sequence
            = ltxEx.vin.items[0]?.map BitcoinTxIn.sequence
        ∧ ltxEx.write_sighash_preimage ⟨0, Sighash.Single, psEx⟩
            = some (.ok (m.ser ++ u32LE 3))
        ∧ ∃ macp, m.legacy_sighash_anyone_can_pay 0 = some macp
            ∧ ltxEx.write_sighash_preimage ⟨0, Sighash.SingleACP, psEx⟩
                = some (.ok (macp.ser ++ u32LE 0x83)) :=
  ⟨by decide, by decide, claim_C1 ltxEx 0 psEx (by decide) (by decide)⟩

/-! ## Evaluation lemmas for the sighash entry points -/

/-- ACP vin replacement succeeds exactly on an in-range index. -/
theorem legacy_sighash_acp_eq (t : LegacyTx) (index : Nat) (txin : BitcoinTxIn)
    (h : t.vin.items[index]? = some txin) :
    t.legacy_sighash_anyone_can_pay index
      = some { t with vin := PVec.fromList [txin] } := by
  unfold LegacyTx.legacy_sighash_anyone_can_pay
  rw [show t.vin.items.get? index = some txin by rw [List.get?_eq_getElem?]; exact h]

/-- ACP vin replacement panics (`none`) on an out-of-range index. -/
theorem legacy_sighash_acp_none (t : LegacyTx) (index : Nat)
    (h : t.vin.items.length ≤ index) :
    t.legacy_sighash_anyone_can_pay index = none := by
  unfold LegacyTx.legacy_sighash_anyone_can_pay
  rw [show t.vin.items.get? index = none by
    rw [List.get?_eq_getElem?]; exact List.getElem?_eq_none h]

/-- The `SIGHASH_SINGLE` modification panics (`none`) when the signed index
has no output. -/
theorem legacy_sighash_single_none (t : LegacyTx) (index : Nat)
    (h : t.vout.items.length ≤ index) :
    t.legacy_sighash_single index = none := by
  unfold LegacyTx.legacy_sighash_single
  rw [show t.vout.items.get? index = none by
    rw [List.get?_eq_getElem?]; exact List.getElem?_eq_none h]

/-- The script-sig preparation step changes neither the input count nor the
outputs. -/
theorem legacy_sighash_prep_vin_length (tx : LegacyTx) (index : Nat) (s : Script) :
    (tx.legacy_sighash_prep index s).vin.items.length = tx.vin.items.length := by
  simp [LegacyTx.legacy_sighash_prep]

/-- A `None`-family flag short-circuits the legacy preimage. -/
theorem legacy_pre_noneflag (tx : LegacyTx) (args : LegacySighashArgs)
    (h : args.sighash_flag = Sighash.None ∨ args.sighash_flag = Sighash.NoneACP) :
    tx.write_sighash_preimage args = some (.error .NoneUnsupported) := by
  unfold LegacyTx.write_sighash_preimage
  rw [if_pos h]

/-- A `Single`-family flag with no output at the signed index returns
`SighashSingleBug` from the legacy preimage. -/
theorem legacy_pre_singlebug (tx : LegacyTx) (args : LegacySighashArgs)
    (hf : args.sighash_flag = Sighash.Single ∨ args.sighash_flag = Sighash.SingleACP)
    (h : tx.vout.items.length ≤ args.index) :
    tx.write_sighash_preimage args = some (.error .SighashSingleBug) := by
  unfold LegacyTx.write_sighash_preimage
  dsimp only
  rw [if_neg (by rcases hf with h | h <;> simp [h]), if_pos hf,
    if_pos (show args.index ≥ tx.vout.items.length from h)]

/-- The legacy preimage succeeds whenever the flag is supported, the signed
input exists, and — for `Single` modes — the signed output exists. -/
theorem legacy_pre_ok (tx : LegacyTx) (args : LegacySighashArgs)
    (hvin : args.index < tx.vin.items.length)
    (hn : ¬(args.sighash_flag = Sighash.None ∨ args.sighash_flag = Sighash.NoneACP))
    (hs : (args.sighash_flag = Sighash.Single ∨ args.sighash_flag = Sighash.SingleACP) →
      args.index < tx.vout.items.length) :
    ∃ d, tx.write_sighash_preimage args = some (.ok d) := by
  unfold LegacyTx.write_sighash_preimage
  dsimp only
  rw [if_neg hn]
  by_cases hsingle : args.sighash_flag = Sighash.Single
      ∨ args.sighash_flag = Sighash.SingleACP
  · rw [if_pos hsingle, if_neg (Nat.not_le.mpr (hs hsingle))]
    obtain ⟨out, hout⟩ : ∃ out,
        (tx.legacy_sighash_prep args.index args.prevout_script).vout.items[args.index]?
          = some out :=
      ⟨_, List.getElem?_eq_getElem (hs hsingle)⟩
    rw [legacy_sighash_single_eq _ _ out hout]
    dsimp only
    by_cases hacp : args.sighash_flag.toByte &&& 0x80 = 0x80
    · rw [if_pos hacp]
      obtain ⟨macp, hmacp⟩ : ∃ macp, (List.mapIdx
          (fun i txin => if i ≠ args.index then { txin with sequence := 0 } else txin)
          (tx.legacy_sighash_prep args.index args.prevout_script).vin.items)[args.index]?
            = some macp := by
        refine ⟨_, List.getElem?_eq_getElem ?_⟩
        simpa [legacy_sighash_prep_vin_length] using hvin
      rw [legacy_sighash_acp_eq _ _ macp hmacp]
      exact ⟨_, rfl⟩
    · rw [if_neg hacp]
      exact ⟨_, rfl⟩
  · rw [if_neg hsingle]
    dsimp only
    by_cases hacp : args.sighash_flag.toByte &&& 0x80 = 0x80
    · rw [if_pos hacp]
      obtain ⟨txin, htxin⟩ : ∃ txin,
          (tx.legacy_sighash_prep args.index args.prevout_script).vin.items[args.index]?
            = some txin := by
        refine ⟨_, List.getElem?_eq_getElem ?_⟩
        simpa [legacy_sighash_prep_vin_length] using hvin
      rw [legacy_sighash_acp_eq _ _ txin htxin]
      exact ⟨_, rfl⟩
    · rw [if_neg hacp]
      exact ⟨_, rfl⟩

/-- The legacy preimage panics (`none`) for an ACP-mode flag whose signed
input index is out of range (when the single-bug guard does not fire
first). -/
theorem legacy_pre_panic (tx : LegacyTx) (args : LegacySighashArgs)
    (hvin : tx.vin.items.length ≤ args.index)
    (hacp : args.sighash_flag.toByte &&& 0x80 = 0x80)
    (hn : ¬(args.sighash_flag = Sighash.None ∨ args.sighash_flag = Sighash.NoneACP))
    (hs : (args.sighash_flag = Sighash.Single ∨ args.sighash_flag = Sighash.SingleACP) →
      args.index < tx.vout.items.length) :
    tx.write_sighash_preimage args = none := by
  unfold LegacyTx.write_sighash_preimage
  dsimp only
  rw [if_neg hn]
  by_cases hsingle : args.sighash_flag = Sighash.Single
      ∨ args.sighash_flag = Sighash.SingleACP
  · rw [if_pos hsingle, if_neg (Nat.not_le.mpr (hs hsingle))]
    obtain ⟨out, hout⟩ : ∃ out,
        (tx.legacy_sighash_prep args.index args.prevout_script).vout.items[args.index]?
          = some out :=
      ⟨_, List.getElem?_eq_getElem (hs hsingle)⟩
    rw [legacy_sighash_single_eq _ _ out hout]
    dsimp only
    rw [if_pos hacp]
    rw [legacy_sighash_acp_none _ _ (by
      simpa [PVec.fromList, List.length_mapIdx, legacy_sighash_prep_vin_length]
        using hvin)]
  · rw [if_neg hsingle]
    dsimp only
    rw [if_pos hacp]
    rw [legacy_sighash_acp_none _ _ (by
      simpa [PVec.fromList, List.length_mapIdx, legacy_sighash_prep_vin_length]
        using hvin)]

/-- `hash_outputs` produces a digest for every supported flag whose `Single`
index (when applicable) is in range. -/
theorem witness_hash_outputs_some (tx : WitnessTx) (index : Nat) (flag : Sighash)
    (hn : flag ≠ Sighash.None ∧ flag ≠ Sighash.NoneACP)
    (hs : (flag = Sighash.Single ∨ flag = Sighash.SingleACP) →
      index < tx.legacy_tx.vout.items.length) :
    ∃ h, tx.hash_outputs index flag = some h := by
  cases flag with
  | All => exact ⟨_, rfl⟩
  | AllACP => exact ⟨_, rfl⟩
  | None => exact absurd rfl hn.1
  | NoneACP => exact absurd rfl hn.2
  | Single =>
      obtain ⟨out, hout⟩ : ∃ out, tx.legacy_tx.vout.items[index]? = some out :=
        ⟨_, List.getElem?_eq_getElem (hs (Or.inl rfl))⟩
      unfold WitnessTx.hash_outputs
      dsimp only
      rw [show tx.legacy_tx.vout.items.get? index = some out by
        rw [List.get?_eq_getElem?]; exact hout]
      exact ⟨_, rfl⟩
  | SingleACP =>
      obtain ⟨out, hout⟩ : ∃ out, tx.legacy_tx.vout.items[index]? = some out :=
        ⟨_, List.getElem?_eq_getElem (hs (Or.inr rfl))⟩
      unfold WitnessTx.hash_outputs
      dsimp only
      rw [show tx.legacy_tx.vout.items.get? index = some out by
        rw [List.get?_eq_getElem?]; exact hout]
      exact ⟨_, rfl⟩

/-- `hash_outputs` panics (`none`) for a `Single`-family flag whose index has
no output. -/
theorem witness_hash_outputs_panic (tx : WitnessTx) (index : Nat) (flag : Sighash)
    (hf : flag = Sighash.Single ∨ flag = Sighash.SingleACP)
    (h : tx.legacy_tx.vout.items.length ≤ index) :
    tx.hash_outputs index flag = none := by
  have hout : tx.legacy_tx.vout.items.get? index = (none : Option TxOut) := by
    rw [List.get?_eq_getElem?]; exact List.getElem?_eq_none h
  rcases hf with hf | hf <;> rw [hf] <;> unfold WitnessTx.hash_outputs <;>
    dsimp only <;> rw [hout]

/-- A `None`-family flag short-circuits the BIP143 preimage. -/
theorem witness_pre_noneflag (tx : WitnessTx) (args : WitnessSighashArgs)
    (h : args.sighash_flag = Sighash.None ∨ args.sighash_flag = Sighash.NoneACP) :
    tx.write_witness_sighash_preimage args = some (.error .NoneUnsupported) := by
  unfold WitnessTx.write_witness_sighash_preimage
  rw [if_pos h]

/-- A `Single`-family flag with no output at the signed index returns
`SighashSingleBug` from the BIP143 preimage. -/
theorem witness_pre_singlebug (tx : WitnessTx) (args : WitnessSighashArgs)
    (hf : args.sighash_flag = Sighash.Single ∨ args.sighash_flag = Sighash.SingleACP)
    (h : tx.legacy_tx.vout.items.length ≤ args.index) :
    tx.write_witness_sighash_preimage args = some (.error .SighashSingleBug) := by
  unfold WitnessTx.write_witness_sighash_preimage
  rw [if_neg (by rcases hf with h' | h' <;> simp [h']), if_pos ⟨hf, h⟩]

/-- The BIP143 preimage succeeds whenever the flag is supported, the signed
input exists, and — for `Single` modes — the signed output exists. -/
theorem witness_pre_ok (tx : WitnessTx) (args : WitnessSighashArgs)
    (hvin : args.index < tx.legacy_tx.vin.items.length)
    (hn : ¬(args.sighash_flag = Sighash.None ∨ args.sighash_flag = Sighash.NoneACP))
    (hs : (args.sighash_flag = Sighash.Single ∨ args.sighash_flag = Sighash.SingleACP) →
      args.index < tx.legacy_tx.vout.items.length) :
    ∃ d, tx.write_witness_sighash_preimage args = some (.ok d) := by
  unfold WitnessTx.write_witness_sighash_preimage
  rw [if_neg hn,
    if_neg (show ¬((args.sighash_flag = Sighash.Single
        ∨ args.sighash_flag = Sighash.SingleACP)
        ∧ args.index ≥ tx.legacy_tx.vout.items.length) from
      fun hq => absurd (hs hq.1) (Nat.not_lt.mpr hq.2))]
  obtain ⟨input, hinput⟩ : ∃ input, tx.legacy_tx.vin.items[args.index]? = some input :=
    ⟨_, List.getElem?_eq_getElem hvin⟩
  rw [show tx.legacy_tx.vin.items.get? args.index = some input by
    rw [List.get?_eq_getElem?]; exact hinput]
  obtain ⟨dig, hdig⟩ := witness_hash_outputs_some tx args.index args.sighash_flag
    ⟨fun h => hn (Or.inl h), fun h => hn (Or.inr h)⟩ hs
  rw [hdig]
  exact ⟨_, rfl⟩

/-- The BIP143 preimage panics (`none`) when the signed input index is out
of range and neither refusal guard fires first. -/
theorem witness_pre_panic (tx : WitnessTx) (args : WitnessSighashArgs)
    (hvin : tx.legacy_tx.vin.items.length ≤ args.index)
    (hn : ¬(args.sighash_flag = Sighash.None ∨ args.sighash_flag = Sighash.NoneACP))
    (hs : (args.sighash_flag = Sighash.Single ∨ args.sighash_flag = Sighash.SingleACP) →
      args.index < tx.legacy_tx.vout.items.length) :
    tx.write_witness_sighash_preimage args = none := by
  unfold WitnessTx.write_witness_sighash_preimage
  rw [if_neg hn,
    if_neg (show ¬((args.sighash_flag = Sighash.Single
        ∨ args.sighash_flag = Sighash.SingleACP)
        ∧ args.index ≥ tx.legacy_tx.vout.items.length) from
      fun hq => absurd (hs hq.1) (Nat.not_lt.mpr hq.2))]
  rw [show tx.legacy_tx.vin.items.get? args.index = none by
    rw [List.get?_eq_getElem?]; exact List.getElem?_eq_none hvin]

/-- C3: given a signed-input index below `inputs.len()`, the sighash
computation errors exactly for the `None` flags (with `NoneUnsupported`) and
for `Single` flags whose index has no output (with `SighashSingleBug`), and
succeeds with a digest in every other case — for both transaction types. -/
theorem claim_C3 :
    (∀ (tx : LegacyTx) (args : LegacySighashArgs),
      args.index < tx.vin.items.length →
      ((∃ e, tx.legacy_sighash args = some (.error e)) ↔
        ((args.sighash_flag = Sighash.None ∨ args.sighash_flag = Sighash.NoneACP)
          ∨ ((args.sighash_flag = Sighash.Single ∨ args.sighash_flag = Sighash.SingleACP)
              ∧ tx.vout.items.length ≤ args.index)))
      ∧ ((args.sighash_flag = Sighash.None ∨ args.sighash_flag = Sighash.NoneACP) →
          tx.legacy_sighash args = some (.error .NoneUnsupported))
      ∧ (((args.sighash_flag = Sighash.Single ∨ args.sighash_flag = Sighash.SingleACP)
            ∧ tx.vout.items.length ≤ args.index) →
          tx.legacy_sighash args = some (.error .SighashSingleBug))
      ∧ (¬((args.sighash_flag = Sighash.None ∨ args.sighash_flag = Sighash.NoneACP)
            ∨ ((args.sighash_flag = Sighash.Single ∨ args.sighash_flag = Sighash.SingleACP)
                ∧ tx.vout.items.length ≤ args.index)) →
          ∃ d, tx.legacy_sighash args = some (.ok d)))
    ∧ (∀ (tx : WitnessTx) (args : WitnessSighashArgs),
      args.index < tx.legacy_tx.vin.items.length →
      ((∃ e, tx.witness_sighash args = some (.error e)) ↔
        ((args.sighash_flag = Sighash.None ∨ args.sighash_flag = Sighash.NoneACP)
          ∨ ((args.sighash_flag = Sighash.Single ∨ args.sighash_flag = Sighash.SingleACP)
              ∧ tx.legacy_tx.vout.items.length ≤ args.index)))
      ∧ ((args.sighash_flag = Sighash.None ∨ args.sighash_flag = Sighash.NoneACP) →
          tx.witness_sighash args = some (.error .NoneUnsupported))
      ∧ (((args.sighash_flag = Sighash.Single ∨ args.sighash_flag = Sighash.SingleACP)
            ∧ tx.legacy_tx.vout.items.length ≤ args.index) →
          tx.witness_sighash args = some (.error .SighashSingleBug))
      ∧ (¬((args.sighash_flag = Sighash.None ∨ args.sighash_flag = Sighash.NoneACP)
            ∨ ((args.sighash_flag = Sighash.Single ∨ args.sighash_flag = Sighash.SingleACP)
                ∧ tx.legacy_tx.vout.items.length ≤ args.index)) →
          ∃ d, tx.witness_sighash args = some (.ok d))) := by
  constructor
  · intro tx args hvin
    by_cases hA : args.sighash_flag = Sighash.None ∨ args.sighash_flag = Sighash.NoneACP
    · have hsig : tx.legacy_sighash args = some (.error .NoneUnsupported) := by
        simp [LegacyTx.legacy_sighash, legacy_pre_noneflag tx args hA, Except.map]
      refine ⟨⟨fun _ => Or.inl hA, fun _ => ⟨_, hsig⟩⟩, fun _ => hsig, ?_, ?_⟩
      · rintro ⟨hf, _⟩
        rcases hA with h | h <;> rcases hf with h' | h' <;> rw [h] at h' <;>
          exact absurd h' (by decide)
      · intro hcon
        exact absurd (Or.inl hA) hcon
    · by_cases hB : (args.sighash_flag = Sighash.Single
          ∨ args.sighash_flag = Sighash.SingleACP) ∧ tx.vout.items.length ≤ args.index
      · have hsig : tx.legacy_sighash args = some (.error .SighashSingleBug) := by
          simp [LegacyTx.legacy_sighash, legacy_pre_singlebug tx args hB.1 hB.2,
            Except.map]
        exact ⟨⟨fun _ => Or.inr hB, fun _ => ⟨_, hsig⟩⟩, fun h => absurd h hA,
          fun _ => hsig, fun hcon => absurd (Or.inr hB) hcon⟩
      · have hs : (args.sighash_flag = Sighash.Single
            ∨ args.sighash_flag = Sighash.SingleACP) →
            args.index < tx.vout.items.length := by
          intro hf
          by_contra hlt
          exact hB ⟨hf, Nat.le_of_not_lt hlt⟩
        obtain ⟨d, hw⟩ := legacy_pre_ok tx args hvin hA hs
        have hsig : tx.legacy_sighash args = some (.ok (sha256d d)) := by
          simp [LegacyTx.legacy_sighash, hw, Except.map]
        refine ⟨⟨?_, ?_⟩, fun h => absurd h hA, fun h => absurd h hB,
          fun _ => ⟨_, hsig⟩⟩
        · rintro ⟨e, he⟩
          rw [hsig] at he
          exact absurd he (by simp)
        · rintro (h | h)
          · exact absurd h hA
          · exact absurd h hB
  · intro tx args hvin
    by_cases hA : args.sighash_flag = Sighash.None ∨ args.sighash_flag = Sighash.NoneACP
    · have hsig : tx.witness_sighash args = some (.error .NoneUnsupported) := by
        simp [WitnessTx.witness_sighash, witness_pre_noneflag tx args hA, Except.map]
      refine ⟨⟨fun _ => Or.inl hA, fun _ => ⟨_, hsig⟩⟩, fun _ => hsig, ?_, ?_⟩
      · rintro ⟨hf, _⟩
        rcases hA with h | h <;> rcases hf with h' | h' <;> rw [h] at h' <;>
          exact absurd h' (by decide)
      · intro hcon
        exact absurd (Or.inl hA) hcon
    · by_cases hB : (args.sighash_flag = Sighash.Single
          ∨ args.sighash_flag = Sighash.SingleACP)
          ∧ tx.legacy_tx.vout.items.length ≤ args.index
      · have hsig : tx.witness_sighash args = some (.error .SighashSingleBug) := by
          simp [WitnessTx.witness_sighash, witness_pre_singlebug tx args hB.1 hB.2,
            Except.map]
        exact ⟨⟨fun _ => Or.inr hB, fun _ => ⟨_, hsig⟩⟩, fun h => absurd h hA,
          fun _ => hsig, fun hcon => absurd (Or.inr hB) hcon⟩
      · have hs : (args.sighash_flag = Sighash.Single
            ∨ args.sighash_flag = Sighash.SingleACP) →
            args.index < tx.legacy_tx.vout.items.length := by
          intro hf
          by_contra hlt
          exact hB ⟨hf, Nat.le_of_not_lt hlt⟩
        obtain ⟨d, hw⟩ := witness_pre_ok tx args hvin hA hs
        have hsig : tx.witness_sighash args = some (.ok (sha256d d)) := by
          simp [WitnessTx.witness_sighash, hw, Except.map]
        refine ⟨⟨?_, ?_⟩, fun h => absurd h hA, fun h => absurd h hB,
          fun _ => ⟨_, hsig⟩⟩
        · rintro ⟨e, he⟩
          rw [hsig] at he
          exact absurd he (by simp)
        · rintro (h | h)
          · exact absurd h hA
          · exact absurd h hB

/-- C3 witness: the error and success cases at concrete transactions. -/
theorem claim_C3_witness :
    (∃ d, ltxEx.legacy_sighash ⟨0, Sighash.All, psEx⟩ = some (Except.ok d))
    ∧ ltxEx.legacy_sighash ⟨0, Sighash.None, psEx⟩
        = some (Except.error TxError.NoneUnsupported)
    ∧ wtxNoOut.witness_sighash ⟨0, Sighash.Single, wpsEx, 120000⟩
        = some (Except.error TxError.SighashSingleBug)
    ∧ (∃ d, wtxEx.witness_sighash ⟨0, Sighash.All, wpsEx, 120000⟩
        = some (Except.ok d)) :=
  ⟨(claim_C3.1 ltxEx ⟨0, Sighash.All, psEx⟩ (by decide)).2.2.2 (by decide),
   (claim_C3.1 ltxEx ⟨0, Sighash.None, psEx⟩ (by decide)).2.1 (Or.inl rfl),
   (claim_C3.2 wtxNoOut ⟨0, Sighash.Single, wpsEx, 120000⟩ (by decide)).2.2.1
     ⟨Or.inl rfl, by decide⟩,
   (claim_C3.2 wtxEx ⟨0, Sighash.All, wpsEx, 120000⟩ (by decide)).2.2.2 (by decide)⟩

/-- C10: under the precondition `index < inputs.len()` the sighash preimage
construction never panics, for both transaction types; without it, the
unchecked indexing of the input vector panics (`none`) instead of returning
an error — shown for the legacy ACP path and for the BIP143 path. -/
theorem claim_C10 :
    (∀ (tx : LegacyTx) (args : LegacySighashArgs),
        args.index < tx.vin.items.length → tx.write_sighash_preimage args ≠ none)
    ∧ (∀ (tx : WitnessTx) (args : WitnessSighashArgs),
        args.index < tx.legacy_tx.vin.items.length →
        tx.write_witness_sighash_preimage args ≠ none)
    ∧ (∀ (tx : LegacyTx) (index : Nat) (s : Script),
        tx.vin.items.length ≤ index →
        tx.write_sighash_preimage ⟨index, Sighash.AllACP, s⟩ = none)
    ∧ (∀ (tx : WitnessTx) (index : Nat) (s : Script) (v : Nat),
        tx.legacy_tx.vin.items.length ≤ index →
        tx.write_witness_sighash_preimage ⟨index, Sighash.All, s, v⟩ = none) := by
  refine ⟨?_, ?_, ?_, ?_⟩
  · intro tx args hvin
    by_cases hA : args.sighash_flag = Sighash.None ∨ args.sighash_flag = Sighash.NoneACP
    · rw [legacy_pre_noneflag tx args hA]
      simp
    · by_cases hB : (args.sighash_flag = Sighash.Single
          ∨ args.sighash_flag = Sighash.SingleACP) ∧ tx.vout.items.length ≤ args.index
      · rw [legacy_pre_singlebug tx args hB.1 hB.2]
        simp
      · obtain ⟨d, hw⟩ := legacy_pre_ok tx args hvin hA
          (fun hf => by
            by_contra hlt
            exact hB ⟨hf, Nat.le_of_not_lt hlt⟩)
        rw [hw]
        simp
  · intro tx args hvin
    by_cases hA : args.sighash_flag = Sighash.None ∨ args.sighash_flag = Sighash.NoneACP
    · rw [witness_pre_noneflag tx args hA]
      simp
    · by_cases hB : (args.sighash_flag = Sighash.Single
          ∨ args.sighash_flag = Sighash.SingleACP)
          ∧ tx.legacy_tx.vout.items.length ≤ args.index
      · rw [witness_pre_singlebug tx args hB.1 hB.2]
        simp
      · obtain ⟨d, hw⟩ := witness_pre_ok tx args hvin hA
          (fun hf => by
            by_contra hlt
            exact hB ⟨hf, Nat.le_of_not_lt hlt⟩)
        rw [hw]
        simp
  · intro tx index s hvin
    exact legacy_pre_panic tx ⟨index, Sighash.AllACP, s⟩ hvin
      (by show Sighash.AllACP.toByte &&& 0x80 = 0x80; decide) (by simp)
      (fun hf => by rcases hf with h | h <;> exact absurd h (by simp))
  · intro tx index s v hvin
    exact witness_pre_panic tx ⟨index, Sighash.All, s, v⟩ hvin (by simp)
      (fun hf => by rcases hf with h | h <;> exact absurd h (by simp))

/-- C10 witness: totality below the input count and the two concrete panics
above it. -/
theorem claim_C10_witness :
    ltxEx.write_sighash_preimage ⟨0, Sighash.All, psEx⟩ ≠ none
    ∧ wtxEx.write_witness_sighash_preimage ⟨0, Sighash.All, wpsEx, 5⟩ ≠ none
    ∧ ltxEx.write_sighash_preimage ⟨1, Sighash.AllACP, psEx⟩ = none
    ∧ wtxEx.write_witness_sighash_preimage ⟨1, Sighash.All, wpsEx, 5⟩ = none :=
  ⟨claim_C10.1 ltxEx ⟨0, Sighash.All, psEx⟩ (by decide),
   claim_C10.2.1 wtxEx ⟨0, Sighash.All, wpsEx, 5⟩ (by decide),
   claim_C10.2.2.1 ltxEx 1 psEx (by decide),
   claim_C10.2.2.2 wtxEx 1 wpsEx 5 (by decide)⟩

/-- C2 counterexample: for a `SINGLE`-mode flag whose (in-range-input) index
has no output, `hash_outputs` does NOT return 32 zero bytes as the claim's
"otherwise" arm states — it panics (`none`): the `_ => zero digest` arm of
the Rust `match` covers only the `None` modes. -/
theorem claim_C2_counterexample :
    0 < wtxNoOut.legacy_tx.vin.items.length
    ∧ wtxNoOut.hash_outputs 0 Sighash.Single ≠ some zeroDigest
    ∧ wtxNoOut.hash_outputs 0 Sighash.Single = none := by
  refine ⟨by decide, by decide, by decide⟩

/-- C2 (amended): the three BIP143 intermediate hashes are computed as the
spec states — `hash_prevouts` hashes all outpoints unless ACP (then zeros);
`hash_sequence` hashes all sequences unless ACP or `Single` (then zeros);
`hash_outputs` hashes all outputs for `All` modes, the single signed output
for `Single` modes with a valid index, and 32 zero bytes for the `None`
modes — but for `Single` modes with an invalid index it panics (it is only
reachable behind the `SighashSingleBug` guard) rather than returning
zeros. -/
theorem claim_C2 :
    ∀ (tx : WitnessTx) (index : Nat) (flag : Sighash),
      index < tx.legacy_tx.vin.items.length →
      ((flag = Sighash.All ∨ flag = Sighash.None ∨ flag = Sighash.Single) →
        tx.hash_prevouts flag
          = sha256d (tx.legacy_tx.vin.items.map (fun i => i.outpoint.ser)).flatten)
      ∧ ((flag = Sighash.AllACP ∨ flag = Sighash.NoneACP ∨ flag = Sighash.SingleACP) →
        tx.hash_prevouts flag = zeroDigest)
      ∧ ((flag = Sighash.All ∨ flag = Sighash.None) →
        tx.hash_sequence flag
          = sha256d (tx.legacy_tx.vin.items.map (fun i => u32LE i.sequence)).flatten)
      ∧ ((flag = Sighash.Single ∨ flag = Sighash.AllACP ∨ flag = Sighash.NoneACP
          ∨ flag = Sighash.SingleACP) →
        tx.hash_sequence flag = zeroDigest)
      ∧ ((flag = Sighash.All ∨ flag = Sighash.AllACP) →
        tx.hash_outputs index flag
          = some (sha256d (tx.legacy_tx.vout.items.map TxOut.ser).flatten))
      ∧ ((flag = Sighash.None ∨ flag = Sighash.NoneACP) →
        tx.hash_outputs index flag = some zeroDigest)
      ∧ ((flag = Sighash.Single ∨ flag = Sighash.SingleACP) →
          index < tx.legacy_tx.vout.items.length →
        ∃ out, tx.legacy_tx.vout.items[index]? = some out
          ∧ tx.hash_outputs index flag = some (sha256d out.ser))
      ∧ ((flag = Sighash.Single ∨ flag = Sighash.SingleACP) →
          tx.legacy_tx.vout.items.length ≤ index →
        tx.hash_outputs index flag = none) := by
  intro tx index flag hvin
  refine ⟨?_, ?_, ?_, ?_, ?_, ?_, ?_, ?_⟩
  · rintro (rfl | rfl | rfl) <;>
      · unfold WitnessTx.hash_prevouts
        rw [if_neg (by decide)]
  · rintro (rfl | rfl | rfl) <;>
      · unfold WitnessTx.hash_prevouts
        rw [if_pos (by decide)]
  · rintro (rfl | rfl) <;>
      · unfold WitnessTx.hash_sequence
        rw [if_neg (by decide)]
  · rintro (rfl | rfl | rfl | rfl) <;>
      · unfold WitnessTx.hash_sequence
        rw [if_pos (by decide)]
  · rintro (rfl | rfl) <;>
      · unfold WitnessTx.hash_outputs
        rfl
  · rintro (rfl | rfl) <;>
      · unfold WitnessTx.hash_outputs
        rfl
  · rintro hf hlt
    obtain ⟨out, hout⟩ : ∃ out, tx.legacy_tx.vout.items[index]? = some out :=
      ⟨_, List.getElem?_eq_getElem hlt⟩
    refine ⟨out, hout, ?_⟩
    rcases hf with rfl | rfl <;>
      · unfold WitnessTx.hash_outputs
        dsimp only
        rw [show tx.legacy_tx.vout.items.get? index = some out by
          rw [List.get?_eq_getElem?]; exact hout]
  · intro hf hge
    exact witness_hash_outputs_panic tx index flag hf hge

/-- C2 witness: the intermediate hashes evaluated at concrete transactions,
including the panic case. -/
theorem claim_C2_witness :
    wtxEx.hash_prevouts Sighash.All
        = sha256d (wtxEx.legacy_tx.vin.items.map (fun i => i.outpoint.ser)).flatten
    ∧ wtxEx.hash_prevouts Sighash.AllACP = zeroDigest
    ∧ wtxEx.hash_sequence Sighash.Single = zeroDigest
    ∧ wtxNoOut.hash_outputs 0 Sighash.Single = none :=
  ⟨(claim_C2 wtxEx 0 Sighash.All (by decide)).1 (Or.inl rfl),
   (claim_C2 wtxEx 0 Sighash.AllACP (by decide)).2.1 (Or.inl rfl),
   (claim_C2 wtxEx 0 Sighash.Single (by decide)).2.2.2.1 (Or.inl rfl),
   (claim_C2 wtxNoOut 0 Sighash.Single (by decide)).2.2.2.2.2.2.2
     (Or.inl rfl) (by decide)⟩
